import Mathlib

/-!
# ju::tag_invoke : a shallow embedding of the dispatch protocol

Source files: `include/ju/tag_invoke.hpp`, `example/mylib.hpp`, `example/example.cpp`.

The header is a compile-time mechanism.  Its one function,
`_tag_invoke::tag_invoke_t::operator()`, is

    template <typename Tag, typename... Args>
    constexpr auto operator()(Tag tag, Args &&...args) const
        noexcept(noexcept(INNER)) -> decltype(INNER) { return INNER; }

with `INNER = tag_invoke(static_cast<Tag &&>(tag), static_cast<Args &&>(args)...)`, an
unqualified call.  What the header computes is therefore decided by three language rules that
the embedding makes explicit:

* template argument deduction for `Tag` (by value) and `Args &&` (forwarding references),
  and the type and value category of `static_cast<Args &&>(args)`;
* argument dependent lookup and overload resolution of the unqualified call;
* the `noexcept` operator and `decltype` applied to that call.

The fragment of the language that is modelled: the arithmetic types `int`, `float`, `double`,
stateless tag classes, other class types (copyable and movable, constructors possibly throwing,
no conversion functions, no inheritance), implementations that are non-template hidden friends
taking each parameter by value, by lvalue reference or by rvalue reference.
-/

namespace ju

/-! ## Types, expressions, values -/

/-- Object types.  A class type is identified by its name together with the exception
specifications of the constructors that copy it (from an lvalue or a const rvalue) and move it
(from a non-const rvalue).  A tag is a stateless marker class: its copy and move
constructors are the implicit ones and never throw. -/
inductive Ty where
  | int
  | float
  | double
  | tag (name : Nat)
  | cls (name : Nat) (nothrowCopy : Bool) (nothrowMove : Bool)
deriving DecidableEq, Repr

/-- Reference kind of a declared type: none (`T`), `T &` or `T &&`. -/
inductive Ref where
  | none
  | lref
  | rref
deriving DecidableEq, Repr

/-- Value category of an expression. -/
inductive Cat where
  | lvalue
  | xvalue
  | prvalue
deriving DecidableEq, Repr

/-- A declared type `[const] base [& | &&]`: a parameter type, a return type, or a template
argument such as the `Args` of `is_tag_invocable<Tag, Args...>`. -/
structure QualTy where
  base : Ty
  isConst : Bool
  ref : Ref
deriving DecidableEq, Repr

/-- The type and value category of an argument expression. -/
structure ArgTy where
  ty : Ty
  isConst : Bool
  cat : Cat
deriving DecidableEq, Repr

/-- Run-time values are kept abstract: the state of an object is an integer. -/
abbrev Val := Int

/-- An argument expression at a call site: its type, category and the value it denotes. -/
structure Arg where
  ty : Ty
  isConst : Bool
  cat : Cat
  val : Val
deriving DecidableEq, Repr

/-- The static part of an argument expression. -/
def Arg.toArgTy (a : Arg) : ArgTy := ⟨a.ty, a.isConst, a.cat⟩

/-- True for the built-in arithmetic types. -/
def Ty.isArith : Ty → Bool
  | .int => true
  | .float => true
  | .double => true
  | .tag _ => false
  | .cls _ _ _ => false

/-! ## Deduction and forwarding (tag_invoke.hpp lines 10-12, 55) -/

/-- Deduction of `Args` from an argument bound to the forwarding reference `Args &&`:
an lvalue of type `T` deduces `T &`, an rvalue deduces `T` (cv qualifiers are kept). -/
def deduce (a : ArgTy) : QualTy :=
  match a.cat with
  | .lvalue => ⟨a.ty, a.isConst, .lref⟩
  | .xvalue => ⟨a.ty, a.isConst, .none⟩
  | .prvalue => ⟨a.ty, a.isConst, .none⟩

/-- Type and category of `static_cast<A &&>(x)` and of `std::declval<A>()`: by reference
collapsing `A &&` is an lvalue reference when `A` is one, and an rvalue reference otherwise. -/
def declval (A : QualTy) : ArgTy :=
  match A.ref with
  | .lref => ⟨A.base, A.isConst, .lvalue⟩
  | .none => ⟨A.base, A.isConst, .xvalue⟩
  | .rref => ⟨A.base, A.isConst, .xvalue⟩

/-- The expression of the given type and category that denotes an object holding `v`. -/
def ArgTy.withVal (e : ArgTy) (v : Val) : Arg := ⟨e.ty, e.isConst, e.cat, v⟩

/-- The expression `static_cast<Args &&>(args)` for a function parameter `Args &&args` that
was bound to the argument `a`: same object, category given by the deduced `Args`. -/
def forward (a : Arg) : Arg := (declval (deduce a.toArgTy)).withVal a.val

/-! ## Implementations and overload resolution of the unqualified call (line 10) -/

/-- One overload named `tag_invoke`, declared as a hidden friend of the class `owner`.
`params` is the whole parameter list (the tag parameter comes first), `body` is the value
of a direct call of this function on the given argument values. -/
structure Impl where
  owner : Ty
  params : List QualTy
  isNoexcept : Bool
  ret : QualTy
  body : List Val → Val

/-- Ranks of standard conversion sequences, best first. -/
inductive Rank where
  | exact
  | promotion
  | conversion
deriving DecidableEq, Repr

/-- Numeric order of the ranks. -/
def Rank.toNat : Rank → Nat
  | .exact => 0
  | .promotion => 1
  | .conversion => 2

/-- Standard conversion of a value of type `src` to type `dst`: identity, the floating-point
promotion `float → double`, any other conversion between arithmetic types; nothing else
(class types have no conversions in the fragment). -/
def stdConv (src dst : Ty) : Option Rank :=
  if src = dst then some .exact
  else if src = .float ∧ dst = .double then some .promotion
  else if src.isArith ∧ dst.isArith then some .conversion
  else none

/-- An implicit conversion sequence: its rank and, when the parameter is a reference, the kind
and the constness of the reference that is bound. -/
structure ICS where
  rank : Rank
  bind : Ref
  toConst : Bool
  toBase : Ty
deriving DecidableEq, Repr

/-- Implicit conversion sequence from an argument to a parameter type, `none` when the
parameter cannot be initialised from the argument.
* by value: a standard conversion;
* `T &`: binds only to a non-const lvalue of type `T`;
* `const T &`: binds to any expression of type `T`, or to a temporary converted to `T`;
* `T &&`, `const T &&`: bind to an rvalue of type `T` (not dropping const), never to an lvalue
  of type `T`, or to a temporary converted to `T`. -/
def ics (a : ArgTy) (p : QualTy) : Option ICS :=
  match p.ref with
  | .none => (stdConv a.ty p.base).map (fun r => ⟨r, .none, p.isConst, p.base⟩)
  | .lref =>
    if p.isConst then (stdConv a.ty p.base).map (fun r => ⟨r, .lref, true, p.base⟩)
    else if a.ty = p.base ∧ a.cat = .lvalue ∧ a.isConst = false then
      some ⟨.exact, .lref, false, p.base⟩
    else none
  | .rref =>
    if a.ty = p.base then
      if a.cat ≠ .lvalue ∧ (a.isConst = true → p.isConst = true) then
        some ⟨.exact, .rref, p.isConst, p.base⟩
      else none
    else (stdConv a.ty p.base).map (fun r => ⟨r, .rref, p.isConst, p.base⟩)

/-- Conversion sequences of a whole argument list, `none` when the arity differs or some
parameter cannot be initialised. -/
def icsList : List ArgTy → List QualTy → Option (List ICS)
  | [], [] => some []
  | a :: as, p :: ps =>
    match ics a p, icsList as ps with
    | some s, some ss => some (s :: ss)
    | _, _ => none
  | _, _ => none

/-- Sequence `s1` is a better conversion sequence than `s2`: a better rank; or, at equal rank
and both binding references, an rvalue reference against an lvalue reference; or, failing
that, references to the same type of which the second is more cv-qualified. -/
def icsBetter (s1 s2 : ICS) : Bool :=
  decide (s1.rank.toNat < s2.rank.toNat) ||
  (decide (s1.rank = s2.rank) && decide (s1.bind ≠ .none) && decide (s2.bind ≠ .none) &&
    ((decide (s1.bind = .rref) && decide (s2.bind = .lref)) ||
     (!(decide (s2.bind = .rref) && decide (s1.bind = .lref)) &&
        decide (s1.toBase = s2.toBase) && !s1.toConst && s2.toConst)))

/-- Argument dependent lookup for hidden friends: a friend of class `owner` is found when
`owner` is the type of one of the arguments. -/
def visible (args : List ArgTy) (f : Impl) : Bool :=
  args.any (fun a => decide (a.ty = f.owner))

/-- The candidate accepts the arguments. -/
def accepts (args : List ArgTy) (f : Impl) : Bool :=
  (icsList args f.params).isSome

/-- The viable candidates of the call `tag_invoke(args...)`, in declaration order. -/
def viable (env : List Impl) (args : List ArgTy) : List Impl :=
  env.filter (fun f => visible args f && accepts args f)

/-- Function `f` is a better candidate than `g`: on no argument a worse conversion sequence,
on some argument a better one. -/
def betterFn (args : List ArgTy) (f g : Impl) : Bool :=
  match icsList args f.params, icsList args g.params with
  | some sf, some sg =>
    (List.zip sf sg).all (fun p => !icsBetter p.2 p.1) &&
    (List.zip sf sg).any (fun p => icsBetter p.1 p.2)
  | _, _ => false

/-- Candidate `f` is the best viable function among `cands`: it is better than every other
candidate.  No candidate is better than itself, so this says that the candidates `f` fails to
beat are `f` alone (one occurrence). -/
def isBest (args : List ArgTy) (cands : List Impl) (f : Impl) : Bool :=
  cands.countP (fun g => !betterFn args f g) == 1

/-- Overload resolution of `tag_invoke(args...)`: the unique best viable function; the call is
ill-formed (`none`) when there is no viable candidate or no best one. -/
def resolve (env : List Impl) (args : List ArgTy) : Option Impl :=
  match (viable env args).filter (isBest args (viable env args)) with
  | [f] => some f
  | _ => none

/-! ## The noexcept operator on a call -/

/-- The two constructors that initialise an object from another of the same class. -/
inductive Ctor where
  | copy
  | move
deriving DecidableEq, Repr

/-- The constructor run to initialise parameter `p` from argument `a`.  Only a by-value
parameter of class type runs one: the copy constructor for an lvalue or a const rvalue, the
move constructor for a non-const xvalue, none for a prvalue (it initialises the parameter
directly).  References bind and arithmetic values are converted without any constructor. -/
def initCtor (a : ArgTy) (p : QualTy) : Option Ctor :=
  if p.ref = .none ∧ p.base.isArith = false then
    if a.cat = .prvalue then none
    else if a.cat = .lvalue ∨ a.isConst = true then some .copy
    else some .move
  else none

/-- Exception specification of a constructor of the type. -/
def Ty.ctorNothrow : Ty → Ctor → Bool
  | .cls _ nc _, .copy => nc
  | .cls _ _ nm, .move => nm
  | _, _ => true

/-- Initialising parameter `p` from argument `a` cannot throw. -/
def initNothrow (a : ArgTy) (p : QualTy) : Bool :=
  match initCtor a p with
  | none => true
  | some c => p.base.ctorNothrow c

/-- All parameter initialisations of a call are non-throwing. -/
def initsNothrow : List ArgTy → List QualTy → Bool
  | a :: as, p :: ps => initNothrow a p && initsNothrow as ps
  | _, _ => true

/-- Value of `noexcept(f(args...))` for the selected function `f`. -/
def callNoexcept (f : Impl) (args : List ArgTy) : Bool :=
  f.isNoexcept && initsNothrow args f.params

/-! ## The dispatch core: tag_invoke_t::operator() (lines 9-16) -/

/-- Argument types of `DO_TAG_INVOKE_INNER` (line 10) when `operator()` is called on a tag
expression and argument expressions: `Tag` is deduced by value, hence
`static_cast<Tag &&>(tag)` is a non-const xvalue of the decayed tag type; each `args` is
forwarded with the deduced `Args`. -/
def tag_invoke_t.inner (tag : ArgTy) (args : List ArgTy) : List ArgTy :=
  ⟨tag.ty, false, .xvalue⟩ :: args.map (fun a => declval (deduce a))

/-- The function the unqualified call of line 10 selects, if the call is well-formed. -/
def tag_invoke_t.selected (env : List Impl) (tag : ArgTy) (args : List ArgTy) : Option Impl :=
  resolve env (tag_invoke_t.inner tag args)

/-- Type of a call expression whose callee declares the return type `r`, as `decltype` reports
it: the declared type, except that a prvalue of non-class type has no cv-qualifier, so a
top-level `const` on a by-value arithmetic return type is dropped. -/
def callExprType (r : QualTy) : QualTy :=
  if r.ref = .none ∧ r.base.isArith = true then ⟨r.base, false, .none⟩ else r

/-- Trailing return type `decltype(DO_TAG_INVOKE_INNER)` (line 12): the type of the inner
call expression.  When the inner call is ill-formed the operator is removed from the overload
set (`none`): `tag_invoke_t` has no other call operator, so it is then not callable. -/
def tag_invoke_t.decltype (env : List Impl) (tag : ArgTy) (args : List ArgTy) : Option QualTy :=
  (tag_invoke_t.selected env tag args).map (fun f => callExprType f.ret)

/-- Exception specification `noexcept(noexcept(DO_TAG_INVOKE_INNER))` (line 12) of the
instantiated operator, `none` when there is no such instantiation. -/
def tag_invoke_t.noexceptSpec (env : List Impl) (tag : ArgTy) (args : List ArgTy) :
    Option Bool :=
  (tag_invoke_t.selected env tag args).map
    (fun f => callNoexcept f (tag_invoke_t.inner tag args))

/-- Value of `noexcept(ju::tag_invoke(tag, args...))`: the operator is declared noexcept and
the initialisation of its by-value parameter `Tag tag` cannot throw (the `Args &&` parameters
are references). -/
def tag_invoke_t.exprNoexcept (env : List Impl) (tag : ArgTy) (args : List ArgTy) : Bool :=
  (tag_invoke_t.noexceptSpec env tag args == some true) &&
    initNothrow tag ⟨tag.ty, false, .none⟩

/-- Type `Args &&` of the operator's parameter `args` for a deduced `Args` (line 12), after
reference collapsing: always a reference. -/
def tag_invoke_t.paramTy (A : QualTy) : QualTy :=
  ⟨A.base, A.isConst, if A.ref = .lref then .lref else .rref⟩

/-- The argument expressions of `DO_TAG_INVOKE_INNER` with the values they denote:
`static_cast<Tag &&>(tag), static_cast<Args &&>(args)...` (line 10).  The first denotes the
parameter `tag`, a copy of the tag object; the others denote the caller's objects. -/
def tag_invoke_t.innerArgs (tag : Arg) (args : List Arg) : List Arg :=
  List.zipWith (fun (e : ArgTy) (a : Arg) => e.withVal a.val)
    (tag_invoke_t.inner tag.toArgTy (args.map Arg.toArgTy)) (tag :: args)

/-- Constructors run to initialise the parameters `Args &&...args` of a dispatch operator
(lines 12 and 54) from the arguments of the call. -/
def tag_invoke_t.argCtors (args : List ArgTy) : List Ctor :=
  args.filterMap (fun a => initCtor a (tag_invoke_t.paramTy (deduce a)))

/-- A call made by the dispatch layer: the implementation called, the argument expressions
handed to it, and the constructors the dispatch layer ran on the caller's arguments before
that. -/
structure Call where
  callee : Impl
  args : List Arg
  argCtors : List Ctor

/-- The inner call made by `ju::tag_invoke(tag, args...)` (line 13), if it is well-formed. -/
def tag_invoke_t.call (env : List Impl) (tag : Arg) (args : List Arg) : Option Call :=
  (tag_invoke_t.selected env tag.toArgTy (args.map Arg.toArgTy)).map
    (fun f => ⟨f, tag_invoke_t.innerArgs tag args,
      tag_invoke_t.argCtors (args.map Arg.toArgTy)⟩)

/-- The call `ju::tag_invoke(tag, args...)` (lines 12-14, 18): the value returned by
`return DO_TAG_INVOKE_INNER;`, that is the selected function applied to the values of the
inner argument expressions; `none` when the call is rejected by the compiler. -/
def tag_invoke (env : List Impl) (tag : Arg) (args : List Arg) : Option Val :=
  (tag_invoke_t.call env tag args).map (fun c => c.callee.body (c.args.map Arg.val))

/-! ## The query surface (lines 28-50)

`std::is_invocable<F, T, As...>` is the well-formedness of
`std::declval<F>()(std::declval<T>(), std::declval<As>()...)`, `std::is_nothrow_invocable`
adds that this expression is known not to throw, `std::invoke_result` has a member `type`,
the type of the expression (that of a call of the operator, whose declared return type is
the trailing `decltype`), exactly when it is well-formed. -/

/-- Lines 25-26: `tag_t<tag>`, the type of the tag object without reference and cv
qualifiers. -/
def tag_t (tag : Arg) : Ty := tag.ty

/-- Lines 28-29: `is_tag_invocable<Tag, Args...>`, an alias of
`std::is_invocable<_tag_invoke::tag_invoke_t, Tag, Args...>`; the Boolean is its member
`value`. -/
def is_tag_invocable (env : List Impl) (Tag : QualTy) (Args : List QualTy) : Bool :=
  (tag_invoke_t.decltype env (declval Tag) (Args.map declval)).isSome

/-- Lines 31-32: `is_tag_invocable_v<Tag, Args...>`. -/
def is_tag_invocable_v (env : List Impl) (Tag : QualTy) (Args : List QualTy) : Bool :=
  is_tag_invocable env Tag Args

/-- Lines 34-35: the concept `tag_invocable<Tag, Args...>`. -/
def tag_invocable (env : List Impl) (Tag : QualTy) (Args : List QualTy) : Prop :=
  is_tag_invocable_v env Tag Args = true

/-- Lines 37-38: `is_nothrow_tag_invocable<Tag, Args...>`, an alias of
`std::is_nothrow_invocable<_tag_invoke::tag_invoke_t, Tag, Args...>`; the Boolean is its
member `value`. -/
def is_nothrow_tag_invocable (env : List Impl) (Tag : QualTy) (Args : List QualTy) : Bool :=
  (tag_invoke_t.decltype env (declval Tag) (Args.map declval)).isSome &&
    tag_invoke_t.exprNoexcept env (declval Tag) (Args.map declval)

/-- Lines 40-41: `is_nothrow_tag_invocable_v<Tag, Args...>`. -/
def is_nothrow_tag_invocable_v (env : List Impl) (Tag : QualTy) (Args : List QualTy) : Bool :=
  is_nothrow_tag_invocable env Tag Args

/-- Lines 43-44: the concept `nothrow_tag_invocable<Tag, Args...>`. -/
def nothrow_tag_invocable (env : List Impl) (Tag : QualTy) (Args : List QualTy) : Prop :=
  is_nothrow_tag_invocable_v env Tag Args = true

/-- Lines 46-47: `tag_invoke_result<Tag, Args...>`, an alias of
`std::invoke_result<_tag_invoke::tag_invoke_t, Tag, Args...>`; the value is its member `type`,
`none` when there is no such member. -/
def tag_invoke_result (env : List Impl) (Tag : QualTy) (Args : List QualTy) : Option QualTy :=
  (tag_invoke_t.decltype env (declval Tag) (Args.map declval)).map callExprType

/-- Lines 49-50: `tag_invoke_result_t<Tag, Args...>`. -/
def tag_invoke_result_t (env : List Impl) (Tag : QualTy) (Args : List QualTy) : Option QualTy :=
  tag_invoke_result env Tag Args

/-! ## The generated call operator: DISPATCH_FOR (lines 52-56) -/

/-- The template arguments `TAG, Args...` the operator hands to the queries: `TAG` is the
class named in the expansion, `Args` are deduced from the arguments (`Args &&...args`). -/
def DISPATCH_FOR.Args (args : List ArgTy) : List QualTy := args.map deduce

/-- Return type `ju::tag_invoke_result_t<TAG, Args...>` of the generated operator (line 54);
`none` removes the operator from the overload set, the tag is then not callable. -/
def DISPATCH_FOR.returnType (env : List Impl) (TAG : Ty) (args : List ArgTy) : Option QualTy :=
  tag_invoke_result_t env ⟨TAG, false, .none⟩ (DISPATCH_FOR.Args args)

/-- Exception specification `noexcept(ju::nothrow_tag_invocable<TAG, Args...>)` (line 54). -/
def DISPATCH_FOR.noexceptSpec (env : List Impl) (TAG : Ty) (args : List ArgTy) : Bool :=
  is_nothrow_tag_invocable_v env ⟨TAG, false, .none⟩ (DISPATCH_FOR.Args args)

/-- The expression `*this` inside the generated operator, a const member function: a const
lvalue denoting the tag object the operator was called on. -/
def DISPATCH_FOR.this (self : Arg) : Arg := ⟨self.ty, true, .lvalue, self.val⟩

/-- The call `self(args...)` of a tag object whose class contains `DISPATCH_FOR(TAG)`:
when the operator exists, its body (line 55) calls `ju::tag_invoke` on `*this` and on the
forwarded arguments `static_cast<Args &&>(args)...`. -/
def DISPATCH_FOR (env : List Impl) (TAG : Ty) (self : Arg) (args : List Arg) : Option Val :=
  match DISPATCH_FOR.returnType env TAG (args.map Arg.toArgTy) with
  | none => none
  | some _ => tag_invoke env (DISPATCH_FOR.this self) (args.map forward)

/-- The inner call made when the tag object is called through the generated operator: the
one made by `ju::tag_invoke` in the body (line 55); the constructors run on the caller's
arguments are those of the generated operator's own parameters `Args &&...args` followed by
those of `ju::tag_invoke`. -/
def DISPATCH_FOR.call (env : List Impl) (TAG : Ty) (self : Arg) (args : List Arg) :
    Option Call :=
  match DISPATCH_FOR.returnType env TAG (args.map Arg.toArgTy) with
  | none => none
  | some _ =>
    (tag_invoke_t.call env (DISPATCH_FOR.this self) (args.map forward)).map
      (fun c => ⟨c.callee, c.args,
        tag_invoke_t.argCtors (args.map Arg.toArgTy) ++ c.argCtors⟩)

end ju

/-! ## The example program (example/mylib.hpp, example/example.cpp) -/

namespace mylib
open ju

/-- Line 6 of mylib.hpp: `struct foo_tag`, a stateless tag class. -/
def foo_tag : Ty := .tag 0

/-- Line 7 of mylib.hpp: `friend int tag_invoke(foo_tag, float) noexcept { return 0; }`. -/
def foo_tag.tag_invoke : Impl :=
  ⟨foo_tag, [⟨foo_tag, false, .none⟩, ⟨.float, false, .none⟩], true, ⟨.int, false, .none⟩,
    fun _ => 0⟩

/-- Line 12 of mylib.hpp: `constexpr inline foo_tag foo{};`, a const lvalue. -/
def foo : Arg := ⟨foo_tag, true, .lvalue, 0⟩

end mylib

namespace ns1
open ju

/-- Line 6 of example.cpp: `struct foo1`, an empty class with implicit constructors. -/
def foo1 : Ty := .cls 1 true true

/-- Line 7 of example.cpp: `friend int tag_invoke(mylib::foo_tag, foo1) noexcept { return 1; }`. -/
def foo1.tag_invoke : Impl :=
  ⟨foo1, [⟨mylib.foo_tag, false, .none⟩, ⟨foo1, false, .none⟩], true, ⟨.int, false, .none⟩,
    fun _ => 1⟩

end ns1

namespace ns2
open ju

/-- Line 12 of example.cpp: `struct foo2`, an empty class with implicit constructors. -/
def foo2 : Ty := .cls 2 true true

/-- Line 13 of example.cpp: `friend int tag_invoke(mylib::foo_tag, foo2) noexcept { return 2; }`. -/
def foo2.tag_invoke : Impl :=
  ⟨foo2, [⟨mylib.foo_tag, false, .none⟩, ⟨foo2, false, .none⟩], true, ⟨.int, false, .none⟩,
    fun _ => 2⟩

end ns2

namespace ju

/-- All implementations declared by the example program, in declaration order. -/
def exampleProgram : List Impl :=
  [mylib.foo_tag.tag_invoke, ns1.foo1.tag_invoke, ns2.foo2.tag_invoke]

/-- The call `mylib::foo(args...)` in the example program. -/
def mylib_foo (args : List Arg) : Option Val :=
  DISPATCH_FOR exampleProgram mylib.foo_tag mylib.foo args

/-- Lines 18-24 of example.cpp: the three local variables (non-const lvalues; `v1`, `v2`, `v`
are whatever the objects hold) and the three assertions of `main`. -/
def main (v1 v2 v : Val) : Bool :=
  let f1 : Arg := ⟨ns1.foo1, false, .lvalue, v1⟩
  let f2 : Arg := ⟨ns2.foo2, false, .lvalue, v2⟩
  let default_impl : Arg := ⟨.float, false, .lvalue, v⟩
  (mylib_foo [f1] == some 1) && (mylib_foo [f2] == some 2) &&
    (mylib_foo [default_impl] == some 0)

end ju

/-! ## Reference points for the properties -/

namespace ju

/-- The tag expression `T{}`: a non-const prvalue of the tag class. -/
def tagValue (T : Ty) (v : Val) : Arg := ⟨T, false, .prvalue, v⟩

/-- The unqualified call `tag_invoke(args...)` written directly at a call site: overload
resolution on the argument expressions as written, then the selected function applied to the
argument values. -/
def direct_call (env : List Impl) (args : List Arg) : Option Val :=
  (resolve env (args.map Arg.toArgTy)).map (fun f => f.body (args.map Arg.val))

/-- Two expressions denote the same object with the same type and constness, and are both
lvalues or both rvalues. -/
def sameExpr (a b : Arg) : Prop :=
  a.ty = b.ty ∧ a.isConst = b.isConst ∧ a.val = b.val ∧ (a.cat = .lvalue ↔ b.cat = .lvalue)

/-- The argument `a` of a call is delivered to parameter `p` of the implementation as the
expression `r`: the two expressions denote the same object in the same way, a reference
parameter runs no constructor, and a by-value parameter is not copy-constructed when the
argument is a non-const rvalue. -/
def deliveredTo (a r : Arg) (p : QualTy) : Prop :=
  sameExpr a r ∧ (p.ref ≠ .none → initCtor r.toArgTy p = none) ∧
  (a.cat ≠ .lvalue → a.isConst = false → initCtor r.toArgTy p ≠ some .copy)

/-- The parameter takes an `X` by value or by reference to const: the two forms that accept
every expression of type `X`. -/
def takes (X : Ty) (p : QualTy) : Prop :=
  p.base = X ∧ (p.ref = .none ∨ (p.ref = .lref ∧ p.isConst = true))

/-- The pattern by which a type supplies its implementation in the example
(example.cpp lines 7 and 13): a hidden friend of `X` that takes the tag by value and an `X`,
as in `tag_invoke(T, X)`. -/
def suppliedBy (T X : Ty) (f : Impl) : Prop :=
  ∃ p, f.params = [⟨T, false, .none⟩, p] ∧ takes X p ∧ f.owner = X

/-- The pattern of the fallback in the example (mylib.hpp line 7): a hidden friend of the tag
class `T` that takes the tag by value and an `N`, as in `tag_invoke(T, N)`. -/
def fallbackOn (T N : Ty) (f : Impl) : Prop :=
  ∃ p, f.params = [⟨T, false, .none⟩, p] ∧ takes N p ∧ f.owner = T

/-- The argument expressions of the inner call when a tag object of class `T` is called on
the argument `a`: the tag parameter as an rvalue, the argument as written. -/
def callOn (T : Ty) (a : Arg) : List ArgTy := [⟨T, false, .xvalue⟩, a.toArgTy]

/-- The tag parameter of `g` is a better match for the tag, passed as an rvalue of class `T`,
than the tag parameter of `f`. -/
def bindsTagBetter (T : Ty) (g f : Impl) : Bool :=
  match g.params.head?, f.params.head? with
  | some pg, some pf =>
    match ics ⟨T, false, .xvalue⟩ pg, ics ⟨T, false, .xvalue⟩ pf with
    | some sg, some sf => icsBetter sg sf
    | _, _ => false
  | _, _ => false

/-- Implementation `f` serves the call of a tag object of class `T` on `a` in a program whose
other implementations are `rest`: lookup finds it, it accepts the tag and the argument, and
no implementation of `rest` that is found and accepts them declares a tag parameter that is
a better match for the tag. -/
def serves (T : Ty) (a : Arg) (f : Impl) (rest : List Impl) : Prop :=
  visible (callOn T a) f = true ∧ accepts (callOn T a) f = true ∧
  ∀ g ∈ rest, visible (callOn T a) g = true → accepts (callOn T a) g = true →
    bindsTagBetter T g f = false

/-- Calling the tag object `t`, whose class contains `DISPATCH_FOR(T)`, on `a` calls the
implementation `f`. -/
def callsImpl (env : List Impl) (T : Ty) (t a : Arg) (f : Impl) : Prop :=
  ∃ c, DISPATCH_FOR.call env T t [a] = some c ∧ c.callee = f

/-- The implementation is one for argument type `X`: it has one parameter after the tag and
that parameter is an `X` or a reference to `X`. -/
def isFor (X : Ty) (f : Impl) : Bool :=
  match f.params with
  | [_, p] => decide (p.base = X)
  | _ => false

/-- An implementation has been supplied for the combination `(T, A1..An)`: some declared
overload has exactly these parameter types, up to references and const. -/
def suppliedFor (env : List Impl) (T : Ty) (As : List Ty) : Bool :=
  env.any (fun f => decide (f.params.map QualTy.base = T :: As))

/-- Test input, not part of the example: a class that owns a resource, as one with a
`std::string` member does.  Its copy constructor may throw, its move constructor does not. -/
def widget : Ty := .cls 3 false true

/-- Test input: `friend double tag_invoke(mylib::foo_tag, widget) noexcept { return 3; }`
declared in `widget`. -/
def widget.tag_invoke : Impl :=
  ⟨widget, [⟨mylib.foo_tag, false, .none⟩, ⟨widget, false, .none⟩], true,
    ⟨.double, false, .none⟩, fun _ => 3⟩

/-- Test input: the example program with `widget` added. -/
def widgetProgram : List Impl := exampleProgram ++ [widget.tag_invoke]

/-- Test input: a second tag class `baz_tag`. -/
def baz_tag : Ty := .tag 1

/-- Test input: `friend int tag_invoke(baz_tag, float) noexcept { return 0; }` in `baz_tag`. -/
def baz_tag.on_float : Impl :=
  ⟨baz_tag, [⟨baz_tag, false, .none⟩, ⟨.float, false, .none⟩], true, ⟨.int, false, .none⟩,
    fun _ => 0⟩

/-- Test input: `friend int tag_invoke(baz_tag, double) noexcept { return 1; }` in `baz_tag`. -/
def baz_tag.on_double : Impl :=
  ⟨baz_tag, [⟨baz_tag, false, .none⟩, ⟨.double, false, .none⟩], true, ⟨.int, false, .none⟩,
    fun _ => 1⟩

/-- Test input: a program in which `baz_tag` declares both implementations. -/
def bazProgram : List Impl := [baz_tag.on_float, baz_tag.on_double]

/-- Test input: `friend int tag_invoke(baz_tag, const widget &) { return 1; }` declared in
`widget`. -/
def widget.by_const_ref : Impl :=
  ⟨widget, [⟨baz_tag, false, .none⟩, ⟨widget, true, .lref⟩], false, ⟨.int, false, .none⟩,
    fun _ => 1⟩

/-- Test input: `friend int tag_invoke(baz_tag, widget &&) { return 2; }` declared in
`widget`. -/
def widget.by_rvalue_ref : Impl :=
  ⟨widget, [⟨baz_tag, false, .none⟩, ⟨widget, false, .rref⟩], false, ⟨.int, false, .none⟩,
    fun _ => 2⟩

/-- Test input: a program in which `widget` declares both overloads for `baz_tag`. -/
def widgetRefProgram : List Impl := [widget.by_const_ref, widget.by_rvalue_ref]

/-- Test input: a third tag class `qux_tag` with the generated call operator. -/
def qux_tag : Ty := .tag 2

/-- Test input: `friend int tag_invoke(qux_tag, float &) noexcept { return 0; }` declared in
`qux_tag`, a fallback on `float` that takes its argument by reference to non-const. -/
def qux_tag.on_float_ref : Impl :=
  ⟨qux_tag, [⟨qux_tag, false, .none⟩, ⟨.float, false, .lref⟩], true, ⟨.int, false, .none⟩,
    fun _ => 0⟩

/-- Test input: `friend int tag_invoke(qux_tag, double) noexcept { return 9; }` declared in
`qux_tag`, an implementation for another type. -/
def qux_tag.on_double : Impl :=
  ⟨qux_tag, [⟨qux_tag, false, .none⟩, ⟨.double, false, .none⟩], true, ⟨.int, false, .none⟩,
    fun _ => 9⟩

/-- Test input: `friend int tag_invoke(qux_tag, foo1) noexcept { return 1; }` declared in
`foo1`. -/
def qux_tag.of_foo1 : Impl :=
  ⟨ns1.foo1, [⟨qux_tag, false, .none⟩, ⟨ns1.foo1, false, .none⟩], true, ⟨.int, false, .none⟩,
    fun _ => 1⟩

/-- Test input: `friend int tag_invoke(qux_tag, foo2) noexcept { return 2; }` declared in
`foo2`. -/
def qux_tag.of_foo2 : Impl :=
  ⟨ns2.foo2, [⟨qux_tag, false, .none⟩, ⟨ns2.foo2, false, .none⟩], true, ⟨.int, false, .none⟩,
    fun _ => 2⟩

/-- Test input: a program with the fallback of `qux_tag` and the implementations of `foo1`
and `foo2`. -/
def quxProgram : List Impl := [qux_tag.on_float_ref, qux_tag.of_foo1, qux_tag.of_foo2]

/-- Test input: a class `gauge` with implicit constructors. -/
def gauge : Ty := .cls 4 true true

/-- Test input: `friend const int tag_invoke(mylib::foo_tag, gauge) noexcept { return 4; }`
declared in `gauge`. -/
def gauge.tag_invoke : Impl :=
  ⟨gauge, [⟨mylib.foo_tag, false, .none⟩, ⟨gauge, false, .none⟩], true, ⟨.int, true, .none⟩,
    fun _ => 4⟩

/-- Test input: a tag class `loud_tag` that declares its own copy and move constructors
without `noexcept`, and contains `DISPATCH_FOR(loud_tag)`. -/
def loud_tag : Ty := .cls 5 false false

/-- Test input: `friend int tag_invoke(const loud_tag &, float) noexcept { return 5; }`
declared in `loud_tag`. -/
def loud_tag.on_float : Impl :=
  ⟨loud_tag, [⟨loud_tag, true, .lref⟩, ⟨.float, false, .none⟩], true, ⟨.int, false, .none⟩,
    fun _ => 5⟩

/-- Test input: a program with the implementation of `loud_tag`. -/
def loudProgram : List Impl := [loud_tag.on_float]

end ju

/-! # Properties -/

namespace ju

/-! ## Overload resolution -/

theorem icsBetter_irrefl (s : ICS) : icsBetter s s = false := by
  cases s with
  | mk r b c t => cases r <;> cases b <;> cases c <;> simp [icsBetter]

theorem zip_self_any_icsBetter (l : List ICS) :
    (List.zip l l).any (fun p => icsBetter p.1 p.2) = false := by
  induction l with
  | nil => rfl
  | cons s l ih => simp [List.zip_cons_cons, List.any_cons, icsBetter_irrefl, ih]

theorem betterFn_irrefl (args : List ArgTy) (f : Impl) : betterFn args f f = false := by
  unfold betterFn
  cases h : icsList args f.params with
  | none => rfl
  | some sf => simp only [zip_self_any_icsBetter, Bool.and_false]

theorem zip_any_all_swap (sf sg : List ICS)
    (h : (List.zip sf sg).any (fun p => icsBetter p.1 p.2) = true) :
    (List.zip sg sf).all (fun p => !icsBetter p.2 p.1) = false := by
  induction sf generalizing sg with
  | nil => simp at h
  | cons a sf ih =>
    cases sg with
    | nil => simp at h
    | cons b sg =>
      simp only [List.zip_cons_cons, List.any_cons, Bool.or_eq_true] at h
      simp only [List.zip_cons_cons, List.all_cons, Bool.and_eq_false_iff]
      rcases h with h | h
      · left; simp [h]
      · right; exact ih sg h

theorem betterFn_asymm (args : List ArgTy) (f g : Impl) (h : betterFn args f g = true) :
    betterFn args g f = false := by
  unfold betterFn at h ⊢
  cases hf : icsList args f.params with
  | none => simp [hf] at h
  | some sf =>
    cases hg : icsList args g.params with
    | none => simp [hf, hg] at h
    | some sg =>
      simp only [hf, hg, Bool.and_eq_true] at h
      simp only [Bool.and_eq_false_iff]
      left
      exact zip_any_all_swap sf sg h.2

theorem isBest_of_dominates (args : List ArgTy) (l1 l2 : List Impl) (f : Impl)
    (h : ∀ g ∈ l1 ++ l2, betterFn args f g = true) :
    isBest args (l1 ++ f :: l2) f = true := by
  unfold isBest
  have h1 : l1.countP (fun g => !betterFn args f g) = 0 := by
    rw [List.countP_eq_zero]
    intro g hg
    simp [h g (List.mem_append_left _ hg)]
  have h2 : l2.countP (fun g => !betterFn args f g) = 0 := by
    rw [List.countP_eq_zero]
    intro g hg
    simp [h g (List.mem_append_right _ hg)]
  simp [List.countP_append, List.countP_cons, h1, h2, betterFn_irrefl]

theorem not_isBest_of_dominated (args : List ArgTy) (l1 l2 : List Impl) (f g : Impl)
    (hg : g ∈ l1 ++ l2) (h : betterFn args f g = true) :
    isBest args (l1 ++ f :: l2) g = false := by
  unfold isBest
  have hf : (fun x => !betterFn args g x) f = true := by
    simp [betterFn_asymm args f g h]
  have hgg : (fun x => !betterFn args g x) g = true := by
    simp [betterFn_irrefl]
  have a2 : 0 < (f :: ([] : List Impl)).countP (fun x => !betterFn args g x) :=
    List.countP_pos_iff.2 ⟨f, by simp, hf⟩
  have e : l1 ++ f :: l2 = l1 ++ ([f] ++ l2) := by simp
  rw [e, List.countP_append, List.countP_append]
  rcases List.mem_append.1 hg with hg | hg
  · have a1 : 0 < l1.countP (fun x => !betterFn args g x) :=
      List.countP_pos_iff.2 ⟨g, hg, hgg⟩
    simp only [beq_eq_false_iff_ne, ne_eq]
    omega
  · have a1 : 0 < l2.countP (fun x => !betterFn args g x) :=
      List.countP_pos_iff.2 ⟨g, hg, hgg⟩
    simp only [beq_eq_false_iff_ne, ne_eq]
    omega

/-- A viable candidate that is better than every other viable candidate is the one selected. -/
theorem resolve_of_dominates (env : List Impl) (args : List ArgTy) (l1 l2 : List Impl)
    (f : Impl) (hv : viable env args = l1 ++ f :: l2)
    (h : ∀ g ∈ l1 ++ l2, betterFn args f g = true) : resolve env args = some f := by
  unfold resolve
  rw [hv]
  have e1 : l1.filter (isBest args (l1 ++ f :: l2)) = [] := by
    rw [List.filter_eq_nil_iff]
    intro g hg
    have hg2 : g ∈ l1 ++ l2 := List.mem_append_left _ hg
    simp [not_isBest_of_dominated args l1 l2 f g hg2 (h g hg2)]
  have e2 : l2.filter (isBest args (l1 ++ f :: l2)) = [] := by
    rw [List.filter_eq_nil_iff]
    intro g hg
    have hg2 : g ∈ l1 ++ l2 := List.mem_append_right _ hg
    simp [not_isBest_of_dominated args l1 l2 f g hg2 (h g hg2)]
  rw [List.filter_append, List.filter_cons, e1, e2, isBest_of_dominates args l1 l2 f h]
  rfl

/-- The selected function is a viable candidate that is better than every other one. -/
theorem resolve_eq_some (env : List Impl) (args : List ArgTy) (f : Impl)
    (h : resolve env args = some f) :
    ∃ l1 l2, viable env args = l1 ++ f :: l2 ∧ ∀ g ∈ l1 ++ l2, betterFn args f g = true := by
  unfold resolve at h
  split at h
  · rename_i f0 hfil
    have hf : f0 = f := by simpa using h
    subst hf
    have hmem : f0 ∈ (viable env args).filter (isBest args (viable env args)) := by
      rw [hfil]; simp
    rw [List.mem_filter] at hmem
    obtain ⟨l1, l2, hsplit⟩ := List.append_of_mem hmem.1
    refine ⟨l1, l2, hsplit, ?_⟩
    have hb := hmem.2
    rw [hsplit] at hb
    unfold isBest at hb
    have e : l1 ++ f0 :: l2 = l1 ++ ([f0] ++ l2) := by simp
    rw [e, List.countP_append, List.countP_append] at hb
    have hone : ([f0] : List Impl).countP (fun g => !betterFn args f0 g) = 1 := by
      simp [List.countP_cons, betterFn_irrefl]
    rw [hone] at hb
    have hb2 : l1.countP (fun g => !betterFn args f0 g) + (1 +
        l2.countP (fun g => !betterFn args f0 g)) = 1 := by simpa using hb
    have z1 : l1.countP (fun g => !betterFn args f0 g) = 0 := by omega
    have z2 : l2.countP (fun g => !betterFn args f0 g) = 0 := by omega
    rw [List.countP_eq_zero] at z1 z2
    intro g hg
    rcases List.mem_append.1 hg with hg | hg
    · simpa using z1 g hg
    · simpa using z2 g hg
  · simp at h

theorem resolve_mem_viable (env : List Impl) (args : List ArgTy) (f : Impl)
    (h : resolve env args = some f) : f ∈ viable env args := by
  obtain ⟨l1, l2, hv, _⟩ := resolve_eq_some env args f h
  rw [hv]; simp

theorem resolve_of_viable_nil (env : List Impl) (args : List ArgTy)
    (h : viable env args = []) : resolve env args = none := by
  unfold resolve; rw [h]; rfl

theorem perm_split (env rest : List Impl) (f : Impl) (h : env.Perm (f :: rest)) :
    ∃ l1 l2, env = l1 ++ f :: l2 ∧ (l1 ++ l2).Perm rest := by
  have hm : f ∈ env := (h.mem_iff).2 (List.mem_cons_self f rest)
  obtain ⟨l1, l2, hs⟩ := List.append_of_mem hm
  refine ⟨l1, l2, hs, ?_⟩
  rw [hs] at h
  exact (List.perm_middle.symm.trans h).cons_inv

/-- Forwarding an argument through `Args &&` keeps its type and constness; an lvalue stays an
lvalue, an rvalue arrives as an xvalue. -/
theorem declval_deduce (a : ArgTy) :
    declval (deduce a) = ⟨a.ty, a.isConst, if a.cat = .lvalue then .lvalue else .xvalue⟩ := by
  cases a with
  | mk t c k => cases k <;> rfl

theorem declval_deduce_idem (a : ArgTy) :
    declval (deduce (declval (deduce a))) = declval (deduce a) := by
  cases a with
  | mk t c k => cases k <;> rfl

theorem forward_toArgTy (a : Arg) : (forward a).toArgTy = declval (deduce a.toArgTy) := rfl

theorem forward_val (a : Arg) : (forward a).val = a.val := rfl

theorem forward_idem (a : Arg) : forward (forward a) = forward a := by
  cases a with
  | mk t c k v => cases k <;> rfl

theorem map_forward_val (args : List Arg) : (args.map forward).map Arg.val = args.map Arg.val := by
  simp [List.map_map, Function.comp_def, forward_val]

theorem map_forward_toArgTy (args : List Arg) :
    (args.map forward).map Arg.toArgTy =
      (args.map Arg.toArgTy).map (fun a => declval (deduce a)) := by
  simp [List.map_map, Function.comp_def, forward_toArgTy]

/-- Conversion sequences do not tell a prvalue from an xvalue: the forwarded argument converts
to every parameter type exactly as the original argument does. -/
theorem ics_declval_deduce (a : ArgTy) (p : QualTy) : ics (declval (deduce a)) p = ics a p := by
  cases a with
  | mk t c k => cases k <;> simp [declval, deduce, ics]

theorem icsList_map_declval_deduce (as : List ArgTy) (ps : List QualTy) :
    icsList (as.map (fun a => declval (deduce a))) ps = icsList as ps := by
  induction as generalizing ps with
  | nil => cases ps <;> rfl
  | cons a as ih =>
    cases ps with
    | nil => rfl
    | cons p ps => simp only [List.map_cons, icsList, ics_declval_deduce, ih]

theorem visible_map_declval_deduce (as : List ArgTy) (f : Impl) :
    visible (as.map (fun a => declval (deduce a))) f = visible as f := by
  unfold visible
  induction as with
  | nil => rfl
  | cons a as ih =>
    simp only [List.map_cons, List.any_cons, ih]
    cases a with
    | mk t c k => cases k <;> rfl

/-- Overload resolution only depends on the conversion sequences and on the types that drive
the lookup. -/
theorem resolve_congr (env : List Impl) (as bs : List ArgTy)
    (h1 : ∀ ps, icsList as ps = icsList bs ps) (h2 : ∀ f, visible as f = visible bs f) :
    resolve env as = resolve env bs := by
  have hb : betterFn as = betterFn bs := by
    funext f g
    simp only [betterFn, h1]
  have hv : viable env as = viable env bs := by
    unfold viable accepts
    congr 1
    funext f
    rw [h1, h2]
  unfold resolve isBest
  rw [hv, hb]

theorem resolve_map_declval_deduce (env : List Impl) (as : List ArgTy) :
    resolve env (as.map (fun a => declval (deduce a))) = resolve env as :=
  resolve_congr env _ _ (icsList_map_declval_deduce as) (visible_map_declval_deduce as)

theorem viable_map_declval_deduce (env : List Impl) (as : List ArgTy) :
    viable env (as.map (fun a => declval (deduce a))) = viable env as := by
  unfold viable accepts
  congr 1
  funext f
  rw [icsList_map_declval_deduce, visible_map_declval_deduce]

/-! ## The dispatch core -/

/-- The tag is taken by value: whatever the tag expression, the inner call sees a non-const
xvalue of its type, and the arguments as forwarded once. -/
theorem selected_eq_resolve (env : List Impl) (tag : ArgTy) (as : List ArgTy) :
    tag_invoke_t.selected env tag as =
      resolve env (⟨tag.ty, false, .xvalue⟩ :: as.map (fun a => declval (deduce a))) := rfl

theorem selected_forwarded (env : List Impl) (tag : ArgTy) (as : List ArgTy) :
    tag_invoke_t.selected env tag (as.map (fun a => declval (deduce a))) =
      tag_invoke_t.selected env tag as := by
  simp only [selected_eq_resolve, List.map_map, Function.comp_def, declval_deduce_idem]

/-- With the tag written `T{}`, the inner call resolves as the direct call does. -/
theorem selected_tagValue (env : List Impl) (T : Ty) (v : Val) (args : List Arg) :
    tag_invoke_t.selected env (tagValue T v).toArgTy (args.map Arg.toArgTy) =
      resolve env ((tagValue T v :: args).map Arg.toArgTy) := by
  rw [← resolve_map_declval_deduce env ((tagValue T v :: args).map Arg.toArgTy)]
  rfl

theorem zipWith_withVal_forward (args : List Arg) :
    List.zipWith (fun (e : ArgTy) (a : Arg) => e.withVal a.val)
      ((args.map Arg.toArgTy).map (fun a => declval (deduce a))) args = args.map forward := by
  induction args with
  | nil => rfl
  | cons a as ih =>
    simp only [List.map_cons, List.zipWith_cons_cons, ih]
    rfl

/-- The inner expressions: the tag parameter as a non-const xvalue, then each argument as
forwarded. -/
theorem innerArgs_eq (tag : Arg) (args : List Arg) :
    tag_invoke_t.innerArgs tag args = ⟨tag.ty, false, .xvalue, tag.val⟩ :: args.map forward := by
  unfold tag_invoke_t.innerArgs tag_invoke_t.inner
  rw [List.zipWith_cons_cons, zipWith_withVal_forward]
  rfl

theorem innerArgs_val (tag : Arg) (args : List Arg) :
    (tag_invoke_t.innerArgs tag args).map Arg.val = tag.val :: args.map Arg.val := by
  rw [innerArgs_eq, List.map_cons, map_forward_val]

theorem tag_invoke_eq (env : List Impl) (tag : Arg) (args : List Arg) :
    tag_invoke env tag args =
      (tag_invoke_t.selected env tag.toArgTy (args.map Arg.toArgTy)).map
        (fun f => f.body (tag.val :: args.map Arg.val)) := by
  unfold tag_invoke tag_invoke_t.call
  rw [Option.map_map]
  congr 1
  funext f
  simp only [Function.comp_apply, innerArgs_val]

theorem callExprType_idem (r : QualTy) : callExprType (callExprType r) = callExprType r := by
  unfold callExprType
  split
  · rename_i h
    simp [h.2]
  · rfl

/-- The dispatcher and the direct call agree on every argument list, accepted or not. -/
theorem tag_invoke_eq_direct_call (env : List Impl) (T : Ty) (v : Val) (args : List Arg) :
    tag_invoke env (tagValue T v) args = direct_call env (tagValue T v :: args) := by
  rw [tag_invoke_eq, selected_tagValue]
  rfl

theorem selected_this (env : List Impl) (t : Arg) (args : List Arg) :
    tag_invoke_t.selected env (DISPATCH_FOR.this t).toArgTy
        ((args.map forward).map Arg.toArgTy) =
      tag_invoke_t.selected env t.toArgTy (args.map Arg.toArgTy) := by
  rw [map_forward_toArgTy, selected_forwarded]
  rfl

theorem returnType_eq (env : List Impl) (t : Arg) (args : List Arg) :
    DISPATCH_FOR.returnType env t.ty (args.map Arg.toArgTy) =
      (tag_invoke_t.selected env t.toArgTy (args.map Arg.toArgTy)).map
        (fun f => callExprType f.ret) := by
  unfold DISPATCH_FOR.returnType tag_invoke_result_t tag_invoke_result tag_invoke_t.decltype
    DISPATCH_FOR.Args
  have e : ((args.map Arg.toArgTy).map deduce).map declval =
      (args.map Arg.toArgTy).map (fun a => declval (deduce a)) := by
    simp [List.map_map, Function.comp_def]
  rw [e, selected_forwarded, Option.map_map]
  have e2 : tag_invoke_t.selected env (declval ⟨t.ty, false, .none⟩) (args.map Arg.toArgTy) =
      tag_invoke_t.selected env t.toArgTy (args.map Arg.toArgTy) := rfl
  rw [e2]
  congr 1
  funext f
  exact callExprType_idem f.ret

/-- The generated operator and the explicit dispatch agree on every argument list. -/
theorem DISPATCH_FOR_eq_tag_invoke (env : List Impl) (t : Arg) (args : List Arg) :
    DISPATCH_FOR env t.ty t args = tag_invoke env t args := by
  unfold DISPATCH_FOR
  rw [returnType_eq, tag_invoke_eq, tag_invoke_eq, selected_this, map_forward_val]
  cases tag_invoke_t.selected env t.toArgTy (args.map Arg.toArgTy) <;> rfl

/-- Claim C2 (CPO call equals explicit dispatch).  For a tag object `t` whose class contains
`DISPATCH_FOR` of that class and arguments for which the combination is resolvable, the call
`t(args...)` returns a value and it is the value of `ju::tag_invoke(t, args...)`. -/
theorem cpo_call_eq_dispatch (env : List Impl) (t : Arg) (args : List Arg)
    (h : tag_invocable env ⟨t.ty, false, .none⟩ (DISPATCH_FOR.Args (args.map Arg.toArgTy))) :
    ∃ v, DISPATCH_FOR env t.ty t args = some v ∧ tag_invoke env t args = some v := by
  rw [DISPATCH_FOR_eq_tag_invoke]
  unfold tag_invocable is_tag_invocable_v is_tag_invocable tag_invoke_t.decltype
    DISPATCH_FOR.Args at h
  have e : ((args.map Arg.toArgTy).map deduce).map declval =
      (args.map Arg.toArgTy).map (fun a => declval (deduce a)) := by
    simp [List.map_map, Function.comp_def]
  rw [e, selected_forwarded] at h
  have h2 : (tag_invoke_t.selected env t.toArgTy (args.map Arg.toArgTy)).isSome = true := by
    simpa using h
  rw [tag_invoke_eq]
  cases hs : tag_invoke_t.selected env t.toArgTy (args.map Arg.toArgTy) with
  | none => simp [hs] at h2
  | some f => exact ⟨_, rfl, rfl⟩

theorem cpo_call_eq_dispatch_witness :
    tag_invocable exampleProgram ⟨mylib.foo.ty, false, .none⟩
        (DISPATCH_FOR.Args ([(⟨ns2.foo2, false, .lvalue, 0⟩ : Arg)].map Arg.toArgTy)) ∧
    ∃ v, DISPATCH_FOR exampleProgram mylib.foo.ty mylib.foo [⟨ns2.foo2, false, .lvalue, 0⟩] =
        some v ∧
      tag_invoke exampleProgram mylib.foo [⟨ns2.foo2, false, .lvalue, 0⟩] = some v :=
  ⟨rfl, cpo_call_eq_dispatch exampleProgram mylib.foo [⟨ns2.foo2, false, .lvalue, 0⟩] rfl⟩

/-- The three calls of the example, through the generated operator and through the explicit
dispatch, give 1, 2 and 0 whatever the objects hold. -/
theorem mylib_foo_values (v1 v2 v : Val) :
    mylib_foo [⟨ns1.foo1, false, .lvalue, v1⟩] = some 1 ∧
    mylib_foo [⟨ns2.foo2, false, .lvalue, v2⟩] = some 2 ∧
    mylib_foo [⟨.float, false, .lvalue, v⟩] = some 0 ∧
    tag_invoke exampleProgram mylib.foo [⟨ns1.foo1, false, .lvalue, v1⟩] = some 1 ∧
    tag_invoke exampleProgram mylib.foo [⟨ns2.foo2, false, .lvalue, v2⟩] = some 2 ∧
    tag_invoke exampleProgram mylib.foo [⟨.float, false, .lvalue, v⟩] = some 0 :=
  ⟨rfl, rfl, rfl, rfl, rfl, rfl⟩

/-- The assertions of `main` hold. -/
theorem main_asserts (v1 v2 v : Val) : main v1 v2 v = true := rfl

/-! ## The inner call -/

theorem paramTy_ref (A : QualTy) : (tag_invoke_t.paramTy A).ref ≠ .none := by
  unfold tag_invoke_t.paramTy
  split <;> simp

theorem initCtor_ref (a : ArgTy) (p : QualTy) (h : p.ref ≠ .none) : initCtor a p = none := by
  unfold initCtor
  rw [if_neg (fun hh => h hh.1)]

/-- The parameters `Args &&...args` of a dispatch operator are references: binding them runs
no constructor. -/
theorem argCtors_nil (args : List ArgTy) : tag_invoke_t.argCtors args = [] := by
  unfold tag_invoke_t.argCtors
  rw [List.filterMap_eq_nil_iff]
  intro a _
  exact initCtor_ref a _ (paramTy_ref _)

/-- The inner call resolves as the call written with the tag as an rvalue and the arguments
as they stand at the call site. -/
theorem selected_eq_resolve_site (env : List Impl) (tag : ArgTy) (as : List ArgTy) :
    tag_invoke_t.selected env tag as = resolve env (⟨tag.ty, false, .xvalue⟩ :: as) := by
  rw [← resolve_map_declval_deduce env (⟨tag.ty, false, .xvalue⟩ :: as)]
  rfl

theorem tag_invoke_call_eq (env : List Impl) (tag : Arg) (args : List Arg) :
    tag_invoke_t.call env tag args =
      (resolve env (⟨tag.ty, false, .xvalue⟩ :: args.map Arg.toArgTy)).map
        (fun f => ⟨f, ⟨tag.ty, false, .xvalue, tag.val⟩ :: args.map forward, []⟩) := by
  unfold tag_invoke_t.call
  rw [selected_eq_resolve_site, innerArgs_eq, argCtors_nil]
  rfl

theorem map_forward_idem (args : List Arg) : (args.map forward).map forward = args.map forward := by
  rw [List.map_map]
  congr 1
  funext a
  exact forward_idem a

theorem DISPATCH_FOR_call_eq (env : List Impl) (t : Arg) (args : List Arg) :
    DISPATCH_FOR.call env t.ty t args =
      (resolve env (⟨t.ty, false, .xvalue⟩ :: args.map Arg.toArgTy)).map
        (fun f => ⟨f, ⟨t.ty, false, .xvalue, t.val⟩ :: args.map forward, []⟩) := by
  unfold DISPATCH_FOR.call
  rw [returnType_eq, tag_invoke_call_eq, argCtors_nil, selected_eq_resolve_site]
  have e : resolve env (⟨(DISPATCH_FOR.this t).ty, false, .xvalue⟩ ::
      (args.map forward).map Arg.toArgTy) =
      resolve env (⟨t.ty, false, .xvalue⟩ :: args.map Arg.toArgTy) := by
    rw [map_forward_toArgTy]
    exact resolve_map_declval_deduce env (⟨t.ty, false, .xvalue⟩ :: args.map Arg.toArgTy)
  rw [e, map_forward_idem, show t.toArgTy.ty = t.ty from rfl]
  cases resolve env (⟨t.ty, false, .xvalue⟩ :: args.map Arg.toArgTy) <;> rfl

theorem DISPATCH_FOR_eq_resolve (env : List Impl) (t : Arg) (args : List Arg) :
    DISPATCH_FOR env t.ty t args =
      (resolve env (⟨t.ty, false, .xvalue⟩ :: args.map Arg.toArgTy)).map
        (fun f => f.body (t.val :: args.map Arg.val)) := by
  rw [DISPATCH_FOR_eq_tag_invoke, tag_invoke_eq, selected_eq_resolve_site]
  rfl

/-! ## Selection by argument type -/

theorem stdConv_rank_ne_exact (a b : Ty) (r : Rank) (h : stdConv a b = some r) (hne : a ≠ b) :
    r ≠ .exact := by
  unfold stdConv at h
  rw [if_neg hne] at h
  split at h
  · cases h; simp
  · split at h
    · cases h; simp
    · cases h

theorem ics_rank_ne_exact (a : ArgTy) (p : QualTy) (s : ICS) (h : ics a p = some s)
    (hne : a.ty ≠ p.base) : s.rank ≠ .exact := by
  unfold ics at h
  have key : ∀ (b : Ref) (c : Bool),
      (stdConv a.ty p.base).map (fun r => (⟨r, b, c, p.base⟩ : ICS)) = some s →
      s.rank ≠ .exact := by
    intro b c hm
    cases hc : stdConv a.ty p.base with
    | none => simp [hc] at hm
    | some r =>
      simp only [hc, Option.map_some', Option.some.injEq] at hm
      subst hm
      exact stdConv_rank_ne_exact _ _ r hc hne
  split at h
  · exact key _ _ h
  · split at h
    · exact key _ _ h
    · split at h
      · rename_i hh; exact absurd hh.1 hne
      · cases h
  · rw [if_neg hne] at h
    exact key _ _ h

theorem ics_rank_exact (a : ArgTy) (p : QualTy) (s : ICS) (h : ics a p = some s)
    (he : a.ty = p.base) : s.rank = .exact := by
  unfold ics at h
  have hs : stdConv a.ty p.base = some .exact := by
    unfold stdConv
    rw [if_pos he]
  split at h
  · rw [hs] at h
    simp only [Option.map_some', Option.some.injEq] at h
    rw [← h]
  · split at h
    · rw [hs] at h
      simp only [Option.map_some', Option.some.injEq] at h
      rw [← h]
    · split at h
      · simp only [Option.some.injEq] at h
        rw [← h]
      · cases h
  · rw [if_pos he] at h
    split at h
    · simp only [Option.some.injEq] at h
      rw [← h]
    · cases h

theorem ics_byval_same (T : Ty) (c : Bool) (k : Cat) :
    ics ⟨T, c, k⟩ ⟨T, false, .none⟩ = some ⟨.exact, .none, false, T⟩ := by
  simp [ics, stdConv]

theorem icsBetter_exact_byval (s e : ICS) (he : e.rank = .exact) (hb : e.bind = .none) :
    icsBetter s e = false := by
  cases s with
  | mk r b c t => cases r <;> simp [icsBetter, he, hb, Rank.toNat]

theorem icsBetter_exact_right (s e : ICS) (he : e.rank = .exact) (hs : s.rank ≠ .exact) :
    icsBetter s e = false := by
  cases s with
  | mk r b c t =>
    cases r
    · exact absurd rfl hs
    · simp [icsBetter, he, Rank.toNat]
    · simp [icsBetter, he, Rank.toNat]

theorem ics_takes (X : Ty) (c : Bool) (k : Cat) (p : QualTy) (hp : takes X p) :
    ∃ e, ics ⟨X, c, k⟩ p = some e ∧ e.rank = .exact := by
  obtain ⟨hb, hr⟩ := hp
  rcases hr with hr | ⟨hr, hc⟩
  · exact ⟨⟨.exact, .none, p.isConst, p.base⟩, by simp [ics, hr, hb, stdConv], rfl⟩
  · exact ⟨⟨.exact, .lref, true, p.base⟩, by simp [ics, hr, hc, hb, stdConv], rfl⟩

theorem icsBetter_of_exact (e s : ICS) (he : e.rank = .exact) (hs : s.rank ≠ .exact) :
    icsBetter e s = true := by
  cases s with
  | mk r b c t =>
    cases r
    · exact absurd rfl hs
    · simp [icsBetter, he, Rank.toNat]
    · simp [icsBetter, he, Rank.toNat]

theorem icsList_length (as : List ArgTy) (ps : List QualTy) (ss : List ICS)
    (h : icsList as ps = some ss) : ps.length = as.length := by
  induction as generalizing ps ss with
  | nil =>
    cases ps with
    | nil => rfl
    | cons p ps => simp [icsList] at h
  | cons a as ih =>
    cases ps with
    | nil => simp [icsList] at h
    | cons p ps =>
      simp only [icsList] at h
      cases h1 : ics a p with
      | none => simp [h1] at h
      | some s =>
        cases h2 : icsList as ps with
        | none => simp [h1, h2] at h
        | some ss2 => simp [ih ps ss2 h2]

theorem icsList_two (a1 a2 : ArgTy) (p1 p2 : QualTy) (ss : List ICS)
    (h : icsList [a1, a2] [p1, p2] = some ss) :
    ∃ s1 s2, ics a1 p1 = some s1 ∧ ics a2 p2 = some s2 ∧ ss = [s1, s2] := by
  simp only [icsList] at h
  cases h1 : ics a1 p1 with
  | none => simp [h1] at h
  | some s1 =>
    cases h2 : ics a2 p2 with
    | none => simp [h1, h2] at h
    | some s2 =>
      refine ⟨s1, s2, rfl, rfl, ?_⟩
      simp only [h1, h2, Option.some.injEq] at h
      exact h.symm

theorem accepts_two (a1 a2 : ArgTy) (g : Impl) (h : accepts [a1, a2] g = true) :
    ∃ p1 p2 s1 s2, g.params = [p1, p2] ∧ ics a1 p1 = some s1 ∧ ics a2 p2 = some s2 ∧
      icsList [a1, a2] g.params = some [s1, s2] := by
  unfold accepts at h
  obtain ⟨ss, hss⟩ := Option.isSome_iff_exists.1 h
  have hlen : g.params.length = 2 := icsList_length _ _ ss hss
  obtain ⟨p1, p2, hp⟩ := List.length_eq_two.1 hlen
  rw [hp] at hss
  obtain ⟨s1, s2, h1, h2, hs⟩ := icsList_two a1 a2 p1 p2 ss hss
  exact ⟨p1, p2, s1, s2, hp, h1, h2, by rw [hp, hss, hs]⟩

theorem isFor_eq_true (X : Ty) (f : Impl) (h : isFor X f = true) :
    ∃ q p, f.params = [q, p] ∧ p.base = X := by
  unfold isFor at h
  split at h
  · rename_i q p hp
    exact ⟨q, p, hp, by simpa using h⟩
  · cases h

theorem isFor_ne (X Y : Ty) (f : Impl) (h : isFor Y f = true) (hne : Y ≠ X) :
    isFor X f = false := by
  obtain ⟨q, p, hp, hb⟩ := isFor_eq_true Y f h
  simp [isFor, hp, hb, hne]

theorem mem_viable (env : List Impl) (args : List ArgTy) (g : Impl) :
    g ∈ viable env args ↔ g ∈ env ∧ visible args g = true ∧ accepts args g = true := by
  unfold viable
  rw [List.mem_filter, Bool.and_eq_true]

/-- An implementation for `X` that accepts a call on an `X` argument is a better candidate
than an accepting implementation that is not one for `X` and whose tag parameter is not a
better match. -/
theorem betterFn_of_serves (T X : Ty) (a : Arg) (f g : Impl) (ha : a.ty = X)
    (hf : isFor X f = true) (hfa : accepts (callOn T a) f = true)
    (hg : isFor X g = false) (hga : accepts (callOn T a) g = true)
    (hb : bindsTagBetter T g f = false) :
    betterFn (callOn T a) f g = true := by
  obtain ⟨q, p, s1, s2, hp, h1, h2, hl⟩ := accepts_two _ _ f hfa
  obtain ⟨q', p', s1', s2', hp', h1', h2', hl'⟩ := accepts_two _ _ g hga
  obtain ⟨q0, p0, hp0, hb0⟩ := isFor_eq_true X f hf
  rw [hp] at hp0
  have hpb : p.base = X := by
    have := (List.cons.inj (List.cons.inj hp0).2).1
    rw [this]; exact hb0
  have hne : p'.base ≠ X := by
    unfold isFor at hg
    rw [hp'] at hg
    simpa using hg
  have r2 : s2.rank = .exact := ics_rank_exact _ _ s2 h2 (by rw [hpb]; exact ha)
  have r2' : s2'.rank ≠ .exact :=
    ics_rank_ne_exact _ _ s2' h2' (fun e => hne (by rw [← e]; exact ha))
  have t1 : icsBetter s1' s1 = false := by
    unfold bindsTagBetter at hb
    rw [hp, hp'] at hb
    simp only [List.head?_cons] at hb
    have h1a : ics ⟨T, false, .xvalue⟩ q = some s1 := h1
    have h1b : ics ⟨T, false, .xvalue⟩ q' = some s1' := h1'
    rw [h1a, h1b] at hb
    exact hb
  have hl2 : icsList (callOn T a) f.params = some [s1, s2] := hl
  have hl2' : icsList (callOn T a) g.params = some [s1', s2'] := hl'
  unfold betterFn
  rw [hl2, hl2']
  simp [t1, icsBetter_exact_right s2' s2 r2 r2', icsBetter_of_exact s2 s2' r2 r2']

theorem viable_perm (env env' : List Impl) (args : List ArgTy) (h : env.Perm env') :
    (viable env args).Perm (viable env' args) := by
  unfold viable
  exact h.filter _

/-- In a program made of an implementation `f` for `X` and implementations for other types,
a call on an `X` argument resolves to `f` exactly when `f` serves the call. -/
theorem resolve_iff_serves (T X : Ty) (env rest : List Impl) (f : Impl) (a : Arg)
    (henv : env.Perm (f :: rest)) (hf : isFor X f = true) (ha : a.ty = X)
    (ho : ∀ g ∈ rest, isFor X g = false) :
    resolve env (callOn T a) = some f ↔ serves T a f rest := by
  constructor
  · intro hr
    obtain ⟨l1, l2, hv, hb⟩ := resolve_eq_some env _ f hr
    have hfv : f ∈ viable env (callOn T a) := by rw [hv]; simp
    have hfm := (mem_viable env _ f).1 hfv
    refine ⟨hfm.2.1, hfm.2.2, ?_⟩
    intro g hg hgv hga
    have hp : (l1 ++ f :: l2).Perm (f :: viable rest (callOn T a)) := by
      rw [← hv]
      have := viable_perm env (f :: rest) (callOn T a) henv
      unfold viable at this ⊢
      rw [List.filter_cons, hfm.2.1, hfm.2.2] at this
      exact this
    have hp2 : (l1 ++ l2).Perm (viable rest (callOn T a)) :=
      (List.perm_middle.symm.trans hp).cons_inv
    have hgm : g ∈ l1 ++ l2 := (hp2.mem_iff).2 ((mem_viable rest _ g).2 ⟨hg, hgv, hga⟩)
    have hbet := hb g hgm
    obtain ⟨q, p, s1, s2, hq, h1, h2, hl⟩ := accepts_two _ _ f hfm.2.2
    obtain ⟨q', p', s1', s2', hq', h1', h2', hl'⟩ := accepts_two _ _ g hga
    have hl2 : icsList (callOn T a) f.params = some [s1, s2] := hl
    have hl2' : icsList (callOn T a) g.params = some [s1', s2'] := hl'
    unfold betterFn at hbet
    rw [hl2, hl2'] at hbet
    simp only [List.zip_cons_cons, List.all_cons, Bool.and_eq_true, Bool.not_eq_true'] at hbet
    unfold bindsTagBetter
    rw [hq, hq']
    simp only [List.head?_cons]
    have h1a : ics ⟨T, false, .xvalue⟩ q = some s1 := h1
    have h1b : ics ⟨T, false, .xvalue⟩ q' = some s1' := h1'
    rw [h1a, h1b]
    exact hbet.1.1
  · rintro ⟨hvis, hacc, hbest⟩
    have hp : (viable env (callOn T a)).Perm (f :: viable rest (callOn T a)) := by
      have := viable_perm env (f :: rest) (callOn T a) henv
      unfold viable at this ⊢
      rw [List.filter_cons, hvis, hacc] at this
      exact this
    obtain ⟨l1, l2, hv, hp2⟩ := perm_split _ _ f hp
    refine resolve_of_dominates env _ l1 l2 f hv ?_
    intro g hg
    have hgm := (mem_viable rest _ g).1 ((hp2.mem_iff).1 hg)
    exact betterFn_of_serves T X a f g ha hf hacc (ho g hgm.1) hgm.2.2
      (hbest g hgm.1 hgm.2.1 hgm.2.2)

/-- An implementation declared as in the example serves every call on its type, whatever else
is declared. -/
theorem serves_of_takes (T X : Ty) (a : Arg) (f : Impl) (rest : List Impl) (p : QualTy)
    (hf : f.params = [⟨T, false, .none⟩, p]) (hp : takes X p)
    (hown : f.owner = T ∨ f.owner = X) (ha : a.ty = X) : serves T a f rest := by
  have hvis : visible (callOn T a) f = true := by
    rcases hown with h | h <;> simp [visible, callOn, Arg.toArgTy, h, ha]
  obtain ⟨e, he, _⟩ := ics_takes X a.isConst a.cat p hp
  have hat : a.toArgTy = ⟨X, a.isConst, a.cat⟩ := by
    unfold Arg.toArgTy
    rw [ha]
  refine ⟨hvis, ?_, ?_⟩
  · simp [accepts, callOn, hf, icsList, ics_byval_same, hat, he]
  · intro g _ _ _
    unfold bindsTagBetter
    rw [hf]
    cases hgp : g.params.head? with
    | none => rfl
    | some pg =>
      cases hi : ics ⟨T, false, .xvalue⟩ pg with
      | none => simp [ics_byval_same, hi]
      | some sg =>
        have hb := icsBetter_exact_byval sg ⟨.exact, .none, false, T⟩ rfl rfl
        simp [ics_byval_same, hi, hb]

theorem serves_mono (T : Ty) (a : Arg) (f : Impl) (rest rest' : List Impl)
    (hsub : ∀ g ∈ rest', g ∈ rest) (h : serves T a f rest) : serves T a f rest' :=
  ⟨h.1, h.2.1, fun g hg => h.2.2 g (hsub g hg)⟩

theorem callsImpl_iff (env : List Impl) (t a : Arg) (f : Impl) :
    callsImpl env t.ty t a f ↔ resolve env (callOn t.ty a) = some f := by
  unfold callsImpl
  rw [DISPATCH_FOR_call_eq]
  have e : (⟨t.ty, false, .xvalue⟩ : ArgTy) :: [a].map Arg.toArgTy = callOn t.ty a := rfl
  rw [e]
  cases h : resolve env (callOn t.ty a) with
  | none => simp
  | some f' =>
    constructor
    · rintro ⟨c, hc, hcf⟩
      simp only [Option.map_some', Option.some.injEq] at hc
      rw [← hc] at hcf
      rw [← hcf]
    · intro hf
      simp only [Option.some.injEq] at hf
      exact ⟨_, rfl, hf⟩

/-- One call: selection and result of calling the tag on an argument of type `X`. -/
theorem dispatch_one (T X : Ty) (env rest : List Impl) (f : Impl) (t a : Arg)
    (henv : env.Perm (f :: rest)) (hf : isFor X f = true)
    (ho : ∀ g ∈ rest, isFor X g = false) (ht : t.ty = T) (ha : a.ty = X) :
    (callsImpl env T t a f ↔ serves T a f rest) ∧
    (serves T a f rest → DISPATCH_FOR env T t [a] = some (f.body [t.val, a.val])) := by
  subst ht
  have hiff := resolve_iff_serves t.ty X env rest f a henv hf ha ho
  refine ⟨(callsImpl_iff env t a f).trans hiff, ?_⟩
  intro hs
  rw [DISPATCH_FOR_eq_resolve]
  have e : (⟨t.ty, false, .xvalue⟩ : ArgTy) :: [a].map Arg.toArgTy = callOn t.ty a := rfl
  rw [e, hiff.2 hs]
  rfl

/-- Claim C3, amended (selection by argument type, no interference).  Let a tag `T` have a
fallback `fN` on a built-in numeric type `N`, let two distinct types `A` and `B` each supply
an implementation `fA`, `fB`, and let the program consist of these three and of any
implementations for other types, in any order.  Calling the tag on an `A` value calls `fA`
exactly when `fA` serves the call: lookup finds it, it accepts the tag and the argument, and
no other implementation that is found and accepts them declares a tag parameter that is a
better match for the tag; it then returns the result of `fA`, the same as in the program
made of the three implementations alone.  Likewise for `B` and for `N`.  An implementation
declared as in the example, the tag by value and the argument by value or by reference to
const, serves every call on its type whatever else is declared. -/
theorem dispatch_by_argument_type (T N A B : Ty) (fN fA fB : Impl) (others env : List Impl)
    (_hN : N.isArith = true) (hAB : A ≠ B) (hAN : A ≠ N) (hBN : B ≠ N)
    (hfN : isFor N fN = true) (hfA : isFor A fA = true) (hfB : isFor B fB = true)
    (ho : ∀ g ∈ others, isFor A g = false ∧ isFor B g = false ∧ isFor N g = false)
    (henv : env.Perm (fN :: fA :: fB :: others))
    (t a b x : Arg) (ht : t.ty = T) (ha : a.ty = A) (hb : b.ty = B) (hx : x.ty = N) :
    ((callsImpl env T t a fA ↔ serves T a fA (fN :: fB :: others)) ∧
     (callsImpl env T t b fB ↔ serves T b fB (fN :: fA :: others)) ∧
     (callsImpl env T t x fN ↔ serves T x fN (fA :: fB :: others))) ∧
    ((serves T a fA (fN :: fB :: others) →
        DISPATCH_FOR env T t [a] = some (fA.body [t.val, a.val]) ∧
        DISPATCH_FOR env T t [a] = DISPATCH_FOR [fN, fA, fB] T t [a]) ∧
     (serves T b fB (fN :: fA :: others) →
        DISPATCH_FOR env T t [b] = some (fB.body [t.val, b.val]) ∧
        DISPATCH_FOR env T t [b] = DISPATCH_FOR [fN, fA, fB] T t [b]) ∧
     (serves T x fN (fA :: fB :: others) →
        DISPATCH_FOR env T t [x] = some (fN.body [t.val, x.val]) ∧
        DISPATCH_FOR env T t [x] = DISPATCH_FOR [fN, fA, fB] T t [x])) ∧
    ((suppliedBy T A fA → serves T a fA (fN :: fB :: others)) ∧
     (suppliedBy T B fB → serves T b fB (fN :: fA :: others)) ∧
     (fallbackOn T N fN → serves T x fN (fA :: fB :: others))) := by
  have nA_fN : isFor A fN = false := isFor_ne A N fN hfN (fun h => hAN h.symm)
  have nA_fB : isFor A fB = false := isFor_ne A B fB hfB (fun h => hAB h.symm)
  have nB_fN : isFor B fN = false := isFor_ne B N fN hfN (fun h => hBN h.symm)
  have nB_fA : isFor B fA = false := isFor_ne B A fA hfA hAB
  have nN_fA : isFor N fA = false := isFor_ne N A fA hfA hAN
  have nN_fB : isFor N fB = false := isFor_ne N B fB hfB hBN
  have oA : ∀ g ∈ fN :: fB :: others, isFor A g = false := by
    intro g hg
    rcases List.mem_cons.1 hg with h | h
    · exact h ▸ nA_fN
    · rcases List.mem_cons.1 h with h | h
      · exact h ▸ nA_fB
      · exact (ho g h).1
  have oB : ∀ g ∈ fN :: fA :: others, isFor B g = false := by
    intro g hg
    rcases List.mem_cons.1 hg with h | h
    · exact h ▸ nB_fN
    · rcases List.mem_cons.1 h with h | h
      · exact h ▸ nB_fA
      · exact (ho g h).2.1
  have oN : ∀ g ∈ fA :: fB :: others, isFor N g = false := by
    intro g hg
    rcases List.mem_cons.1 hg with h | h
    · exact h ▸ nN_fA
    · rcases List.mem_cons.1 h with h | h
      · exact h ▸ nN_fB
      · exact (ho g h).2.2
  have pA : env.Perm (fA :: fN :: fB :: others) := henv.trans (List.Perm.swap fA fN _)
  have pB : env.Perm (fB :: fN :: fA :: others) :=
    henv.trans (@List.perm_middle Impl fB [fN, fA] others)
  have bA : [fN, fA, fB].Perm (fA :: [fN, fB]) := List.Perm.swap fA fN _
  have bB : [fN, fA, fB].Perm (fB :: [fN, fA]) := @List.perm_middle Impl fB [fN, fA] []
  have dA := dispatch_one T A env _ fA t a pA hfA oA ht ha
  have dB := dispatch_one T B env _ fB t b pB hfB oB ht hb
  have dN := dispatch_one T N env _ fN t x henv hfN oN ht hx
  have eA := dispatch_one T A [fN, fA, fB] [fN, fB] fA t a bA hfA
    (fun g hg => oA g (by
      rcases List.mem_cons.1 hg with h | h
      · exact h ▸ List.mem_cons_self _ _
      · rcases List.mem_cons.1 h with h | h
        · exact h ▸ List.mem_cons_of_mem _ (List.mem_cons_self _ _)
        · cases h)) ht ha
  have eB := dispatch_one T B [fN, fA, fB] [fN, fA] fB t b bB hfB
    (fun g hg => oB g (by
      rcases List.mem_cons.1 hg with h | h
      · exact h ▸ List.mem_cons_self _ _
      · rcases List.mem_cons.1 h with h | h
        · exact h ▸ List.mem_cons_of_mem _ (List.mem_cons_self _ _)
        · cases h)) ht hb
  have eN := dispatch_one T N [fN, fA, fB] [fA, fB] fN t x (List.Perm.refl _) hfN
    (fun g hg => oN g (by
      rcases List.mem_cons.1 hg with h | h
      · exact h ▸ List.mem_cons_self _ _
      · rcases List.mem_cons.1 h with h | h
        · exact h ▸ List.mem_cons_of_mem _ (List.mem_cons_self _ _)
        · cases h)) ht hx
  have sub : ∀ (u v : Impl), ∀ g ∈ [u, v], g ∈ u :: v :: others := by
    intro u v g hg
    rcases List.mem_cons.1 hg with h | h
    · exact h ▸ List.mem_cons_self _ _
    · rcases List.mem_cons.1 h with h | h
      · exact h ▸ List.mem_cons_of_mem _ (List.mem_cons_self _ _)
      · cases h
  refine ⟨⟨dA.1, dB.1, dN.1⟩, ⟨?_, ?_, ?_⟩, ⟨?_, ?_, ?_⟩⟩
  · intro hs
    have r1 := dA.2 hs
    have r2 := eA.2 (serves_mono T a fA _ _ (sub fN fB) hs)
    exact ⟨r1, by rw [r1, r2]⟩
  · intro hs
    have r1 := dB.2 hs
    have r2 := eB.2 (serves_mono T b fB _ _ (sub fN fA) hs)
    exact ⟨r1, by rw [r1, r2]⟩
  · intro hs
    have r1 := dN.2 hs
    have r2 := eN.2 (serves_mono T x fN _ _ (sub fA fB) hs)
    exact ⟨r1, by rw [r1, r2]⟩
  · rintro ⟨p, hp, htk, hown⟩
    exact serves_of_takes T A a fA _ p hp htk (Or.inr hown) ha
  · rintro ⟨p, hp, htk, hown⟩
    exact serves_of_takes T B b fB _ p hp htk (Or.inr hown) hb
  · rintro ⟨p, hp, htk, hown⟩
    exact serves_of_takes T N x fN _ p hp htk (Or.inl hown) hx

theorem dispatch_by_argument_type_witness :
    (DISPATCH_FOR (widget.tag_invoke :: exampleProgram) mylib.foo_tag mylib.foo
        [⟨ns1.foo1, false, .lvalue, 0⟩] = some (ns1.foo1.tag_invoke.body [mylib.foo.val, 0]) ∧
      DISPATCH_FOR (widget.tag_invoke :: exampleProgram) mylib.foo_tag mylib.foo
        [⟨ns1.foo1, false, .lvalue, 0⟩] =
        DISPATCH_FOR exampleProgram mylib.foo_tag mylib.foo [⟨ns1.foo1, false, .lvalue, 0⟩]) ∧
    (DISPATCH_FOR (widget.tag_invoke :: exampleProgram) mylib.foo_tag mylib.foo
        [⟨ns2.foo2, false, .prvalue, 0⟩] = some (ns2.foo2.tag_invoke.body [mylib.foo.val, 0]) ∧
      DISPATCH_FOR (widget.tag_invoke :: exampleProgram) mylib.foo_tag mylib.foo
        [⟨ns2.foo2, false, .prvalue, 0⟩] =
        DISPATCH_FOR exampleProgram mylib.foo_tag mylib.foo [⟨ns2.foo2, false, .prvalue, 0⟩]) ∧
    (DISPATCH_FOR (widget.tag_invoke :: exampleProgram) mylib.foo_tag mylib.foo
        [⟨.float, false, .lvalue, 0⟩] = some (mylib.foo_tag.tag_invoke.body [mylib.foo.val, 0]) ∧
      DISPATCH_FOR (widget.tag_invoke :: exampleProgram) mylib.foo_tag mylib.foo
        [⟨.float, false, .lvalue, 0⟩] =
        DISPATCH_FOR exampleProgram mylib.foo_tag mylib.foo [⟨.float, false, .lvalue, 0⟩]) :=
  have h := dispatch_by_argument_type mylib.foo_tag .float ns1.foo1 ns2.foo2
    mylib.foo_tag.tag_invoke ns1.foo1.tag_invoke ns2.foo2.tag_invoke
    [widget.tag_invoke] (widget.tag_invoke :: exampleProgram)
    rfl (by decide) (by decide) (by decide) rfl rfl rfl
    (by
      intro g hg
      rw [List.mem_singleton] at hg
      subst hg
      exact ⟨rfl, rfl, rfl⟩)
    (@List.perm_middle Impl widget.tag_invoke
      [mylib.foo_tag.tag_invoke, ns1.foo1.tag_invoke, ns2.foo2.tag_invoke] []).symm
    mylib.foo ⟨ns1.foo1, false, .lvalue, 0⟩ ⟨ns2.foo2, false, .prvalue, 0⟩
    ⟨.float, false, .lvalue, 0⟩ rfl rfl rfl rfl
  ⟨h.2.1.1 (h.2.2.1 ⟨_, rfl, ⟨rfl, Or.inl rfl⟩, rfl⟩),
   h.2.1.2.1 (h.2.2.2.1 ⟨_, rfl, ⟨rfl, Or.inl rfl⟩, rfl⟩),
   h.2.1.2.2 (h.2.2.2.2 ⟨_, rfl, ⟨rfl, Or.inl rfl⟩, rfl⟩)⟩

/-- Claim C3 as stated fails.  In `quxProgram` the tag `qux_tag` has a fallback on `float`,
and `foo1` and `foo2` each supply an implementation; the fallback takes its argument by
reference to non-const.  Calling the tag on a `float` rvalue does not return the result of
the fallback: the call is rejected.  When an implementation for another type, `double`, is
added, the same call returns 9: the result changes. -/
theorem other_type_interferes :
    isFor .float qux_tag.on_float_ref = true ∧
    isFor ns1.foo1 qux_tag.of_foo1 = true ∧
    isFor ns2.foo2 qux_tag.of_foo2 = true ∧
    isFor .float qux_tag.on_double = false ∧
    DISPATCH_FOR quxProgram qux_tag ⟨qux_tag, true, .lvalue, 0⟩
      [⟨.float, false, .lvalue, 0⟩] = some 0 ∧
    DISPATCH_FOR quxProgram qux_tag ⟨qux_tag, true, .lvalue, 0⟩
      [⟨.float, false, .prvalue, 0⟩] = none ∧
    DISPATCH_FOR (quxProgram ++ [qux_tag.on_double]) qux_tag ⟨qux_tag, true, .lvalue, 0⟩
      [⟨.float, false, .prvalue, 0⟩] = some 9 :=
  ⟨rfl, rfl, rfl, rfl, rfl, rfl, rfl⟩

/-! ## The queries -/

theorem initNothrow_tag_param (T : Ty) :
    initNothrow (declval ⟨T, false, .none⟩) ⟨T, false, .none⟩ = T.ctorNothrow .move := by
  cases T <;> rfl

/-- Two argument types that share the tag `foo_tag` and declare different return types: the
query gives `int` for `foo1` and `double` for `widget`. -/
theorem result_types_differ :
    tag_invoke_result_t widgetProgram ⟨mylib.foo_tag, false, .none⟩
      [⟨ns1.foo1, false, .none⟩] = some ⟨.int, false, .none⟩ ∧
    tag_invoke_result_t widgetProgram ⟨mylib.foo_tag, false, .none⟩
      [⟨widget, false, .none⟩] = some ⟨.double, false, .none⟩ :=
  ⟨rfl, rfl⟩

/-! ## Rejection -/

theorem deduce_map_declval (as : List ArgTy) :
    (as.map deduce).map declval = as.map (fun a => declval (deduce a)) := by
  simp [List.map_map, Function.comp_def]

/-- The resolvability query on the types deduced from a call is the well-formedness of the
direct call with the tag written `T{}`. -/
theorem is_tag_invocable_v_deduced (env : List Impl) (T : Ty) (v : Val) (args : List Arg) :
    is_tag_invocable_v env ⟨T, false, .none⟩ ((args.map Arg.toArgTy).map deduce) =
      (resolve env ((tagValue T v :: args).map Arg.toArgTy)).isSome := by
  unfold is_tag_invocable_v is_tag_invocable tag_invoke_t.decltype
  rw [deduce_map_declval, selected_forwarded, ← selected_tagValue env T v args]
  simp only [Option.isSome_map']
  rfl

/-- Claim C6, amended (unresolvable operations are rejected).  When no visible implementation
accepts the tag `T{}` and the arguments, not even through an implicit conversion, the
resolvability query is false, `ju::tag_invoke(T{}, args...)` has no result and neither has a
call of the tag object; and whenever `ju::tag_invoke` does select an implementation, it is a
visible one that accepts the arguments. -/
theorem unresolvable_rejected (env : List Impl) (T : Ty) (v : Val) (args : List Arg) :
    (viable env ((tagValue T v :: args).map Arg.toArgTy) = [] →
      is_tag_invocable_v env ⟨T, false, .none⟩ ((args.map Arg.toArgTy).map deduce) = false ∧
      tag_invoke env (tagValue T v) args = none ∧
      DISPATCH_FOR env T (tagValue T v) args = none) ∧
    (∀ f, tag_invoke_t.selected env (tagValue T v).toArgTy (args.map Arg.toArgTy) = some f →
      f ∈ env ∧ visible ((tagValue T v :: args).map Arg.toArgTy) f = true ∧
        accepts ((tagValue T v :: args).map Arg.toArgTy) f = true) := by
  refine ⟨?_, ?_⟩
  · intro h
    have hr := resolve_of_viable_nil env _ h
    have ht : tag_invoke env (tagValue T v) args = none := by
      rw [tag_invoke_eq_direct_call]
      unfold direct_call
      rw [hr]
      rfl
    refine ⟨?_, ht, ?_⟩
    · rw [is_tag_invocable_v_deduced env T v args, hr]
      rfl
    · have e := DISPATCH_FOR_eq_tag_invoke env (tagValue T v) args
      have e2 : (tagValue T v).ty = T := rfl
      rw [e2] at e
      rw [e, ht]
  · intro f hf
    rw [selected_tagValue] at hf
    exact (mem_viable env _ f).1 (resolve_mem_viable env _ f hf)

theorem unresolvable_rejected_witness :
    viable exampleProgram
        ((tagValue mylib.foo_tag 0 :: [⟨widget, false, .lvalue, 0⟩]).map Arg.toArgTy) = [] ∧
    (is_tag_invocable_v exampleProgram ⟨mylib.foo_tag, false, .none⟩
        (([(⟨widget, false, .lvalue, 0⟩ : Arg)].map Arg.toArgTy).map deduce) = false ∧
      tag_invoke exampleProgram (tagValue mylib.foo_tag 0) [⟨widget, false, .lvalue, 0⟩] = none ∧
      DISPATCH_FOR exampleProgram mylib.foo_tag (tagValue mylib.foo_tag 0)
        [⟨widget, false, .lvalue, 0⟩] = none) ∧
    tag_invoke_t.selected exampleProgram (tagValue mylib.foo_tag 0).toArgTy
        ([(⟨.int, false, .prvalue, 3⟩ : Arg)].map Arg.toArgTy) = some mylib.foo_tag.tag_invoke ∧
    (mylib.foo_tag.tag_invoke ∈ exampleProgram ∧
      visible ((tagValue mylib.foo_tag 0 :: [⟨.int, false, .prvalue, 3⟩]).map Arg.toArgTy)
        mylib.foo_tag.tag_invoke = true ∧
      accepts ((tagValue mylib.foo_tag 0 :: [⟨.int, false, .prvalue, 3⟩]).map Arg.toArgTy)
        mylib.foo_tag.tag_invoke = true) :=
  ⟨rfl,
   (unresolvable_rejected exampleProgram mylib.foo_tag 0 [⟨widget, false, .lvalue, 0⟩]).1 rfl,
   rfl,
   (unresolvable_rejected exampleProgram mylib.foo_tag 0 [⟨.int, false, .prvalue, 3⟩]).2
     mylib.foo_tag.tag_invoke rfl⟩

/-- Claim C6 as stated fails.  The example program supplies no implementation for
`(foo_tag, double)`, yet `is_tag_invocable_v<foo_tag, double>` is true and
`ju::tag_invoke(foo_tag{}, 0.0)` is a valid call: it selects the implementation supplied for
`float`, converting the argument, and returns 0. -/
theorem conversion_selects_other_type :
    suppliedFor exampleProgram mylib.foo_tag [.double] = false ∧
    is_tag_invocable_v exampleProgram ⟨mylib.foo_tag, false, .none⟩
      [⟨.double, false, .none⟩] = true ∧
    tag_invoke_t.selected exampleProgram (tagValue mylib.foo_tag 0).toArgTy
      [⟨.double, false, .prvalue⟩] = some mylib.foo_tag.tag_invoke ∧
    tag_invoke exampleProgram (tagValue mylib.foo_tag 0) [⟨.double, false, .prvalue, 0⟩] =
      some 0 :=
  ⟨rfl, rfl, rfl, rfl⟩

theorem betterFn_map_declval_deduce (as : List ArgTy) :
    betterFn (as.map (fun a => declval (deduce a))) = betterFn as := by
  funext f g
  simp only [betterFn, icsList_map_declval_deduce]

/-- An `int` passed to a tag with a `float` and a `double` implementation converts equally
well to both: the call is ambiguous and rejected. -/
theorem ambiguous_call_rejected (v : Val) :
    is_tag_invocable_v bazProgram ⟨baz_tag, false, .none⟩ [⟨.int, false, .none⟩] = false ∧
    tag_invoke bazProgram (tagValue baz_tag 0) [⟨.int, false, .prvalue, v⟩] = none :=
  ⟨rfl, rfl⟩

/-- Claim C8, amended (the generated operator and the static properties).  For a tag object
whose class `T` contains `DISPATCH_FOR(T)` and arguments `args`, with `Args` the types
deduced from them: calling the tag object yields a result exactly when
`tag_invocable<T, Args...>` holds, which is also exactly when the operator has a return
type; that return type is the return type of the operator of `ju::tag_invoke` as called in
the body on `*this` and the forwarded arguments; and the generated operator is declared
`noexcept` exactly when that operator is declared `noexcept` and the move constructor of `T`,
which moves the tag into its by-value parameter, cannot throw.  For a stateless tag class
with implicit constructors the last condition always holds. -/
theorem generated_operator_inherits (env : List Impl) (t : Arg) (args : List Arg) :
    ((DISPATCH_FOR env t.ty t args).isSome = true ↔
      tag_invocable env ⟨t.ty, false, .none⟩ (DISPATCH_FOR.Args (args.map Arg.toArgTy))) ∧
    ((DISPATCH_FOR.returnType env t.ty (args.map Arg.toArgTy)).isSome = true ↔
      tag_invocable env ⟨t.ty, false, .none⟩ (DISPATCH_FOR.Args (args.map Arg.toArgTy))) ∧
    (DISPATCH_FOR.noexceptSpec env t.ty (args.map Arg.toArgTy) = true ↔
      tag_invoke_t.noexceptSpec env (DISPATCH_FOR.this t).toArgTy
        ((args.map forward).map Arg.toArgTy) = some true ∧
      t.ty.ctorNothrow .move = true) ∧
    (∀ n, t.ty = .tag n →
      (DISPATCH_FOR.noexceptSpec env t.ty (args.map Arg.toArgTy) = true ↔
        tag_invoke_t.noexceptSpec env (DISPATCH_FOR.this t).toArgTy
          ((args.map forward).map Arg.toArgTy) = some true)) ∧
    DISPATCH_FOR.returnType env t.ty (args.map Arg.toArgTy) =
      tag_invoke_t.decltype env (DISPATCH_FOR.this t).toArgTy
        ((args.map forward).map Arg.toArgTy) := by
  have hargs : (DISPATCH_FOR.Args (args.map Arg.toArgTy)).map declval =
      (args.map forward).map Arg.toArgTy := by
    unfold DISPATCH_FOR.Args
    rw [deduce_map_declval, map_forward_toArgTy]
  have hret : DISPATCH_FOR.returnType env t.ty (args.map Arg.toArgTy) =
      tag_invoke_t.decltype env (DISPATCH_FOR.this t).toArgTy
        ((args.map forward).map Arg.toArgTy) := by
    rw [returnType_eq]
    unfold tag_invoke_t.decltype
    rw [selected_this]
  have hinv : is_tag_invocable_v env ⟨t.ty, false, .none⟩
      (DISPATCH_FOR.Args (args.map Arg.toArgTy)) =
      (DISPATCH_FOR.returnType env t.ty (args.map Arg.toArgTy)).isSome := by
    unfold is_tag_invocable_v is_tag_invocable DISPATCH_FOR.returnType tag_invoke_result_t
      tag_invoke_result
    rw [Option.isSome_map']
  have hspec : DISPATCH_FOR.noexceptSpec env t.ty (args.map Arg.toArgTy) = true ↔
      tag_invoke_t.noexceptSpec env (DISPATCH_FOR.this t).toArgTy
        ((args.map forward).map Arg.toArgTy) = some true ∧
      t.ty.ctorNothrow .move = true := by
    unfold DISPATCH_FOR.noexceptSpec is_nothrow_tag_invocable_v is_nothrow_tag_invocable
      tag_invoke_t.exprNoexcept
    rw [hargs]
    have e1 : tag_invoke_t.noexceptSpec env (declval ⟨t.ty, false, .none⟩)
        ((args.map forward).map Arg.toArgTy) =
        tag_invoke_t.noexceptSpec env (DISPATCH_FOR.this t).toArgTy
          ((args.map forward).map Arg.toArgTy) := rfl
    have e2 : tag_invoke_t.decltype env (declval ⟨t.ty, false, .none⟩)
        ((args.map forward).map Arg.toArgTy) =
        (tag_invoke_t.selected env (DISPATCH_FOR.this t).toArgTy
          ((args.map forward).map Arg.toArgTy)).map (fun f => callExprType f.ret) := rfl
    have e3 : initNothrow (declval ⟨t.ty, false, .none⟩)
        ⟨(declval ⟨t.ty, false, .none⟩).ty, false, .none⟩ = t.ty.ctorNothrow .move :=
      initNothrow_tag_param t.ty
    rw [e1, e2, e3]
    unfold tag_invoke_t.noexceptSpec
    cases tag_invoke_t.selected env (DISPATCH_FOR.this t).toArgTy
        ((args.map forward).map Arg.toArgTy) with
    | none => simp
    | some f => simp
  refine ⟨?_, ?_, hspec, ?_, hret⟩
  · unfold tag_invocable
    rw [hinv, DISPATCH_FOR_eq_tag_invoke, tag_invoke_eq, returnType_eq]
    simp only [Option.isSome_map']
  · unfold tag_invocable
    rw [hinv]
  · intro n hn
    rw [hspec, hn]
    exact ⟨fun h => h.1, fun h => ⟨h, rfl⟩⟩

theorem generated_operator_inherits_witness :
    (DISPATCH_FOR.noexceptSpec exampleProgram mylib.foo.ty
        ([(⟨ns1.foo1, false, .lvalue, 0⟩ : Arg)].map Arg.toArgTy) = true ↔
      tag_invoke_t.noexceptSpec exampleProgram (DISPATCH_FOR.this mylib.foo).toArgTy
        (([(⟨ns1.foo1, false, .lvalue, 0⟩ : Arg)].map forward).map Arg.toArgTy) = some true) ∧
    DISPATCH_FOR.returnType exampleProgram mylib.foo.ty
        ([(⟨ns1.foo1, false, .lvalue, 0⟩ : Arg)].map Arg.toArgTy) =
      tag_invoke_t.decltype exampleProgram (DISPATCH_FOR.this mylib.foo).toArgTy
        (([(⟨ns1.foo1, false, .lvalue, 0⟩ : Arg)].map forward).map Arg.toArgTy) :=
  ⟨(generated_operator_inherits exampleProgram mylib.foo
      [⟨ns1.foo1, false, .lvalue, 0⟩]).2.2.2.1 0 rfl,
   (generated_operator_inherits exampleProgram mylib.foo
      [⟨ns1.foo1, false, .lvalue, 0⟩]).2.2.2.2⟩

/-- Claim C8 as stated fails.  The tag class `loud_tag` declares copy and move constructors
that may throw, and its implementation for `float` takes the tag by reference to const and
is declared `noexcept`.  For a `float` argument the operator of `ju::tag_invoke`, as called
in the body of the generated operator, is declared `noexcept`, yet the generated operator is
not. -/
theorem generated_operator_not_noexcept :
    tag_invocable loudProgram ⟨loud_tag, false, .none⟩
      (DISPATCH_FOR.Args ([(⟨.float, false, .lvalue, 0⟩ : Arg)].map Arg.toArgTy)) ∧
    tag_invoke_t.noexceptSpec loudProgram (DISPATCH_FOR.this ⟨loud_tag, true, .lvalue, 0⟩).toArgTy
      (([(⟨.float, false, .lvalue, 0⟩ : Arg)].map forward).map Arg.toArgTy) = some true ∧
    DISPATCH_FOR.noexceptSpec loudProgram loud_tag
      ([(⟨.float, false, .lvalue, 0⟩ : Arg)].map Arg.toArgTy) = false :=
  ⟨rfl, rfl, rfl⟩

theorem sameExpr_forward (a : Arg) : sameExpr a (forward a) := by
  cases a with
  | mk t c k v =>
    cases k <;>
      simp [sameExpr, forward, declval, deduce, Arg.toArgTy, ArgTy.withVal]

theorem deliveredTo_forward (a : Arg) (p : QualTy) : deliveredTo a (forward a) p := by
  refine ⟨sameExpr_forward a, fun hp => initCtor_ref _ p hp, ?_⟩
  intro hk hc
  cases a with
  | mk t c k v =>
    simp only at hk hc
    subst hc
    cases k
    · exact absurd rfl hk
    · simp [initCtor, forward, declval, deduce, Arg.toArgTy, ArgTy.withVal]
    · simp [initCtor, forward, declval, deduce, Arg.toArgTy, ArgTy.withVal]

theorem forall₂_deliveredTo (args : List Arg) (ps : List QualTy)
    (h : ps.length = args.length) :
    List.Forall₂ (fun a rp => deliveredTo a rp.1 rp.2) args ((args.map forward).zip ps) := by
  induction args generalizing ps with
  | nil => simp
  | cons a as ih =>
    cases ps with
    | nil => simp at h
    | cons p ps =>
      simp only [List.map_cons, List.zip_cons_cons]
      exact List.Forall₂.cons (deliveredTo_forward a p) (ih ps (by simpa using h))

/-- Claim C9 (arguments are forwarded unchanged).  Let `f` be the implementation that the
tag, passed as an rvalue, and the arguments as they stand at the call site resolve to.  Then
`ju::tag_invoke(tag, args...)` calls `f`, and so does the call of the tag object through
`DISPATCH_FOR`.  On both paths `f` receives, after the tag, one expression for each argument
of the call, in the same order: it denotes the same object with the same type and constness,
an lvalue where the argument was an lvalue and an rvalue where it was an rvalue.  The
dispatch layer runs no constructor on any argument; a reference parameter of `f` runs none
either, and a by-value parameter of `f` that receives a non-const rvalue is not
copy-constructed.  The result is the result of `f` on the values received. -/
theorem arguments_forwarded (env : List Impl) (tag : Arg) (args : List Arg) (f : Impl)
    (h : resolve env (⟨tag.ty, false, .xvalue⟩ :: args.map Arg.toArgTy) = some f) :
    tag_invocable env ⟨tag.ty, false, .none⟩ (DISPATCH_FOR.Args (args.map Arg.toArgTy)) ∧
    (∃ c, tag_invoke_t.call env tag args = some c ∧ c.callee = f ∧
      tag_invoke env tag args = some (f.body (c.args.map Arg.val)) ∧
      c.args.length = args.length + 1 ∧ f.params.length = args.length + 1 ∧
      c.args.map Arg.val = tag.val :: args.map Arg.val ∧
      c.argCtors = [] ∧
      List.Forall₂ (fun a rp => deliveredTo a rp.1 rp.2) args
        (c.args.tail.zip f.params.tail)) ∧
    (∃ c, DISPATCH_FOR.call env tag.ty tag args = some c ∧ c.callee = f ∧
      DISPATCH_FOR env tag.ty tag args = some (f.body (c.args.map Arg.val)) ∧
      c.args.length = args.length + 1 ∧ f.params.length = args.length + 1 ∧
      c.args.map Arg.val = tag.val :: args.map Arg.val ∧
      c.argCtors = [] ∧
      List.Forall₂ (fun a rp => deliveredTo a rp.1 rp.2) args
        (c.args.tail.zip f.params.tail)) := by
  have hacc : accepts (⟨tag.ty, false, .xvalue⟩ :: args.map Arg.toArgTy) f = true :=
    ((mem_viable env _ f).1 (resolve_mem_viable env _ f h)).2.2
  obtain ⟨ss, hss⟩ := Option.isSome_iff_exists.1 hacc
  have hlen : f.params.length = args.length + 1 := by
    have := icsList_length _ _ ss hss
    simpa using this
  have htail : f.params.tail.length = args.length := by
    rw [List.length_tail, hlen]
    rfl
  have hval : ((⟨tag.ty, false, .xvalue, tag.val⟩ : Arg) :: args.map forward).map Arg.val =
      tag.val :: args.map Arg.val := by
    rw [List.map_cons, map_forward_val]
  have hl : ((⟨tag.ty, false, .xvalue, tag.val⟩ : Arg) :: args.map forward).length =
      args.length + 1 := by simp
  refine ⟨?_, ⟨⟨f, ⟨tag.ty, false, .xvalue, tag.val⟩ :: args.map forward, []⟩, ?_, rfl, ?_, hl,
      hlen, hval, rfl, forall₂_deliveredTo args _ htail⟩,
    ⟨⟨f, ⟨tag.ty, false, .xvalue, tag.val⟩ :: args.map forward, []⟩, ?_, rfl, ?_, hl,
      hlen, hval, rfl, forall₂_deliveredTo args _ htail⟩⟩
  · unfold tag_invocable is_tag_invocable_v is_tag_invocable tag_invoke_t.decltype
      DISPATCH_FOR.Args
    rw [deduce_map_declval, selected_forwarded, selected_eq_resolve_site]
    have e : (declval ⟨tag.ty, false, .none⟩).ty = tag.ty := rfl
    rw [e, h]
    rfl
  · rw [tag_invoke_call_eq, h]
    rfl
  · rw [tag_invoke_eq, selected_eq_resolve_site, hval]
    have e : (⟨tag.toArgTy.ty, false, .xvalue⟩ : ArgTy) = ⟨tag.ty, false, .xvalue⟩ := rfl
    rw [e, h]
    rfl
  · rw [DISPATCH_FOR_call_eq, h]
    rfl
  · rw [DISPATCH_FOR_eq_resolve, h, hval]
    rfl

theorem arguments_forwarded_witness :
    resolve widgetRefProgram (⟨baz_tag, false, .xvalue⟩ ::
        [(⟨widget, false, .prvalue, 6⟩ : Arg)].map Arg.toArgTy) = some widget.by_rvalue_ref ∧
    (tag_invoke_t.call widgetRefProgram (tagValue baz_tag 0)
        [⟨widget, false, .prvalue, 6⟩]).map (fun c => (c.args, c.argCtors)) =
      some ([⟨baz_tag, false, .xvalue, 0⟩, ⟨widget, false, .xvalue, 6⟩], []) ∧
    (DISPATCH_FOR.call widgetRefProgram baz_tag (tagValue baz_tag 0)
        [⟨widget, false, .prvalue, 6⟩]).map (fun c => (c.args, c.argCtors)) =
      some ([⟨baz_tag, false, .xvalue, 0⟩, ⟨widget, false, .xvalue, 6⟩], []) ∧
    tag_invoke widgetRefProgram (tagValue baz_tag 0) [⟨widget, false, .prvalue, 6⟩] = some 2 ∧
    DISPATCH_FOR widgetRefProgram baz_tag (tagValue baz_tag 0)
      [⟨widget, false, .prvalue, 6⟩] = some 2 ∧
    (∃ c, tag_invoke_t.call widgetRefProgram (tagValue baz_tag 0)
          [⟨widget, false, .prvalue, 6⟩] = some c ∧
      c.callee = widget.by_rvalue_ref ∧
      tag_invoke widgetRefProgram (tagValue baz_tag 0) [⟨widget, false, .prvalue, 6⟩] =
        some (widget.by_rvalue_ref.body (c.args.map Arg.val)) ∧
      c.args.length = [(⟨widget, false, .prvalue, 6⟩ : Arg)].length + 1 ∧
      widget.by_rvalue_ref.params.length = [(⟨widget, false, .prvalue, 6⟩ : Arg)].length + 1 ∧
      c.args.map Arg.val =
        (tagValue baz_tag 0).val :: [(⟨widget, false, .prvalue, 6⟩ : Arg)].map Arg.val ∧
      c.argCtors = [] ∧
      List.Forall₂ (fun a rp => deliveredTo a rp.1 rp.2) [⟨widget, false, .prvalue, 6⟩]
        (c.args.tail.zip widget.by_rvalue_ref.params.tail)) :=
  ⟨rfl, rfl, rfl, rfl, rfl, (arguments_forwarded widgetRefProgram (tagValue baz_tag 0)
    [⟨widget, false, .prvalue, 6⟩] widget.by_rvalue_ref rfl).2.1⟩

/-- The value category survives both paths: with a `const widget &` and a `widget &&`
overload, an lvalue argument reaches the first and an rvalue argument the second, through
`ju::tag_invoke` and through the generated operator alike. -/
theorem forwarding_keeps_value_category :
    tag_invoke widgetRefProgram (tagValue baz_tag 0) [⟨widget, false, .lvalue, 0⟩] = some 1 ∧
    tag_invoke widgetRefProgram (tagValue baz_tag 0) [⟨widget, false, .prvalue, 0⟩] = some 2 ∧
    tag_invoke widgetRefProgram (tagValue baz_tag 0) [⟨widget, false, .xvalue, 0⟩] = some 2 ∧
    DISPATCH_FOR widgetRefProgram baz_tag (tagValue baz_tag 0)
      [⟨widget, false, .lvalue, 0⟩] = some 1 ∧
    DISPATCH_FOR widgetRefProgram baz_tag (tagValue baz_tag 0)
      [⟨widget, false, .prvalue, 0⟩] = some 2 :=
  ⟨rfl, rfl, rfl, rfl, rfl⟩

/-- Claim C10 (the three queries are consistent).  `is_nothrow_tag_invocable_v` implies
`is_tag_invocable_v`, and `tag_invoke_result_t` names a type exactly when
`is_tag_invocable_v` is true. -/
theorem queries_consistent (env : List Impl) (Tag : QualTy) (Args : List QualTy) :
    (is_nothrow_tag_invocable_v env Tag Args = true → is_tag_invocable_v env Tag Args = true) ∧
    ((tag_invoke_result_t env Tag Args).isSome = true ↔
      is_tag_invocable_v env Tag Args = true) := by
  refine ⟨?_, ?_⟩
  · intro h
    unfold is_nothrow_tag_invocable_v is_nothrow_tag_invocable at h
    rw [Bool.and_eq_true] at h
    exact h.1
  · unfold tag_invoke_result_t tag_invoke_result is_tag_invocable_v is_tag_invocable
    rw [Option.isSome_map']

theorem queries_consistent_witness :
    is_nothrow_tag_invocable_v exampleProgram ⟨mylib.foo_tag, false, .none⟩
      [⟨.float, false, .none⟩] = true ∧
    is_tag_invocable_v exampleProgram ⟨mylib.foo_tag, false, .none⟩
      [⟨.float, false, .none⟩] = true ∧
    ((tag_invoke_result_t exampleProgram ⟨mylib.foo_tag, false, .none⟩
        [⟨.float, false, .none⟩]).isSome = true ↔
      is_tag_invocable_v exampleProgram ⟨mylib.foo_tag, false, .none⟩
        [⟨.float, false, .none⟩] = true) :=
  ⟨rfl,
   (queries_consistent exampleProgram ⟨mylib.foo_tag, false, .none⟩
      [⟨.float, false, .none⟩]).1 rfl,
   (queries_consistent exampleProgram ⟨mylib.foo_tag, false, .none⟩
      [⟨.float, false, .none⟩]).2⟩

end ju
